import Mathlib

/-!
# Arabic ↔ Braille transliteration codec — verification

Shallow embedding of the transliteration engine of the repository
(`app.py`, `NaraMa3an.py`, `arabic_braille_gui_v2.py`).  Text is modelled as
`List Char`; Python dictionaries are modelled as association lists looked up
with `List.lookup` (first match wins, matching a Python dict literal whose
keys are unique); the derived reverse tables reproduce the exact
construction order of each source file.  Library calls from Python's
standard library (`str.isdigit`, `unicodedata.normalize`) are modelled for
the codepoints this development manipulates, as documented on each
definition.
-/

set_option maxRecDepth 10000

namespace ArabicBraille

/-- Models Python `str.isdigit` for the codepoint ranges this development
manipulates: ASCII digits, Arabic-indic digits, extended Arabic-indic
digits, the superscript digits `¹ ² ³`, and the Devanagari digits — all of
which Python classifies as digits.  Identity of the remaining behaviour is
irrelevant to the theorems below, which either quantify over the predicate's
branches or instantiate it on these ranges. -/
def pyIsDigit (c : Char) : Bool :=
  (decide (0x30 ≤ c.toNat) && decide (c.toNat ≤ 0x39)) ||
  (decide (0x660 ≤ c.toNat) && decide (c.toNat ≤ 0x669)) ||
  (decide (0x6F0 ≤ c.toNat) && decide (c.toNat ≤ 0x6F9)) ||
  (c.toNat == 0xB2) || (c.toNat == 0xB3) || (c.toNat == 0xB9) ||
  (decide (0x966 ≤ c.toNat) && decide (c.toNat ≤ 0x96F))

/-- ASCII decimal digit. -/
def isAsciiDigit (c : Char) : Bool :=
  decide (0x30 ≤ c.toNat) && decide (c.toNat ≤ 0x39)

/-- The `text.replace("\r\n", "\n").replace("\r", "\n")` pipeline of
`normalize_newlines`, as a single left-to-right pass (the two sequential
replaces coincide with this pass: the first rewrites every `CRLF`, the
second every remaining lone `CR`). -/
def normalize_newlines : List Char → List Char
  | [] => []
  | '\r' :: '\n' :: rest => '\n' :: normalize_newlines rest
  | '\r' :: rest => '\n' :: normalize_newlines rest
  | c :: rest => c :: normalize_newlines rest

/-- The character class of `TASHKEEL_RE`:
`[ؗ-ًؚ-ْٰٓ-ٕ]`. -/
def isTashkeel (c : Char) : Bool :=
  (decide (0x617 ≤ c.toNat) && decide (c.toNat ≤ 0x61A)) ||
  (decide (0x64B ≤ c.toNat) && decide (c.toNat ≤ 0x652)) ||
  (c.toNat == 0x670) ||
  (decide (0x653 ≤ c.toNat) && decide (c.toNat ≤ 0x655))

/-- `remove_tashkeel`: `re.sub(TASHKEEL_RE, "", text)` deletes every
character of the class. -/
def remove_tashkeel (cs : List Char) : List Char :=
  cs.filter (fun c => !(isTashkeel c))

/-- Models `unicodedata.normalize("NFKC", ·)` as a character-wise
compatibility fold.  The characters this development manipulates (Arabic
letters and punctuation, ASCII, Arabic-indic digits, Braille patterns,
whitespace, Devanagari digits) are NFKC-stable, hence mapped to themselves;
the superscript digits `¹ ² ³` carry the NFKC compatibility decomposition to
their ASCII digit. -/
def nfkcChar (c : Char) : List Char :=
  if c = '²' then ['2']
  else if c = '³' then ['3']
  else if c = '¹' then ['1']
  else [c]

/-- `normalize_unicode` of `app.py`: NFKC folding of the whole text. -/
def normalize_unicode (cs : List Char) : List Char :=
  cs.flatMap nfkcChar

/-- `NUM_SIGN = "⠼"` — the Braille Numeric Indicator cell (identical in all
three source files). -/
def NUM_SIGN : Char := '⠼'

/-- `DIGIT_TO_BR` (identical in all three source files). -/
def DIGIT_TO_BR : List (Char × Char) :=
  [('1', '⠁'), ('2', '⠃'), ('3', '⠉'), ('4', '⠙'), ('5', '⠑'),
   ('6', '⠋'), ('7', '⠛'), ('8', '⠓'), ('9', '⠊'), ('0', '⠚')]

/-- `ARABIC_DIGITS_TO_LATIN` (identical in all three source files). -/
def ARABIC_DIGITS_TO_LATIN : List (Char × Char) :=
  [('٠', '0'), ('١', '1'), ('٢', '2'), ('٣', '3'), ('٤', '4'),
   ('٥', '5'), ('٦', '6'), ('٧', '7'), ('٨', '8'), ('٩', '9')]

/-- `LATIN_TO_ARABIC_DIGITS`: in `app.py` written out literally, in the
other two files derived by inverting `ARABIC_DIGITS_TO_LATIN`; both give
this table. -/
def LATIN_TO_ARABIC_DIGITS : List (Char × Char) :=
  [('0', '٠'), ('1', '١'), ('2', '٢'), ('3', '٣'), ('4', '٤'),
   ('5', '٥'), ('6', '٦'), ('7', '٧'), ('8', '٨'), ('9', '٩')]

/-- `BR_TO_DIGIT = {v: k for k, v in DIGIT_TO_BR.items()}`; the table is
bijective, so insertion order is irrelevant. -/
def BR_TO_DIGIT : List (Char × Char) :=
  DIGIT_TO_BR.map (fun p => (p.2, p.1))

/-- `normalize_digits_to_latin`: fold Arabic-indic digits to ASCII,
character-wise, everything else unchanged. -/
def normalize_digits_to_latin (cs : List Char) : List Char :=
  cs.map (fun c => (ARABIC_DIGITS_TO_LATIN.lookup c).getD c)

/-- `ALEF_FORMS = {"ا","أ","إ","آ"}` (identical in all three files). -/
def ALEF_FORMS : List Char := ['ا', 'أ', 'إ', 'آ']

/-- Whitespace test `ch in (" ", "\n", "\t")` shared by the reverse
transliterators. -/
def isWs (c : Char) : Bool := c = ' ' || c = '\n' || c = '\t'

/-- Total stand-in for the raising dictionary indexing
`LATIN_TO_ARABIC_DIGITS[d]`; the `Option`-valued loops below embed the
indexing faithfully and are proved to always succeed, which makes this
stand-in exact wherever the source executes it. -/
def latin_to_arabic_digit (d : Char) : Char :=
  (LATIN_TO_ARABIC_DIGITS.lookup d).getD d

end ArabicBraille

namespace ArabicBraille

namespace App

/-- `AR2BR` of `app.py`, in source order (the order matters for the derived
`BR2AR`). -/
def AR2BR : List (Char × List Char) :=
  [('ا', ['⠁']), ('أ', ['⠁']), ('إ', ['⠁']), ('آ', ['⠁']),
   ('ب', ['⠃']), ('ت', ['⠞']), ('ث', ['⠹']), ('ج', ['⠚']), ('ح', ['⠱']), ('خ', ['⠭']),
   ('د', ['⠙']), ('ذ', ['⠮']), ('ر', ['⠗']), ('ز', ['⠵']), ('س', ['⠎']), ('ش', ['⠩']),
   ('ص', ['⠯']), ('ض', ['⠷']), ('ط', ['⠾']), ('ظ', ['⠿']), ('ع', ['⠫']), ('غ', ['⠣']),
   ('ف', ['⠋']), ('ق', ['⠟']), ('ك', ['⠅']), ('ل', ['⠇']), ('م', ['⠍']), ('ن', ['⠝']),
   ('ه', ['⠓']), ('ة', ['⠓']), ('و', ['⠺']), ('ي', ['⠊']), ('ى', ['⠊']),
   ('ء', ['⠄']), ('ؤ', ['⠺', '⠄']), ('ئ', ['⠊', '⠄']),
   (' ', [' ']), ('\n', ['\n']), ('\t', ['\t']),
   ('،', ['⠂']), (',', ['⠂']),
   ('.', ['⠲']), ('۔', ['⠲']),
   ('؛', ['⠆']), (';', ['⠆']),
   (':', ['⠒']),
   ('؟', ['⠦']), ('?', ['⠦']),
   ('!', ['⠖']),
   ('-', ['⠤']), ('_', ['⠤']), ('ـ', ['⠤']),
   ('"', ['⠶']), ('“', ['⠶']), ('”', ['⠶']),
   ('(', ['⠶']), (')', ['⠶']),
   ('«', ['⠦', '⠦']), ('»', ['⠴', '⠴'])]

/-- The `BR2AR` construction loop of `app.py`: iterate `AR2BR` in order and
keep the first Arabic key for each Braille value (`if len(k) == 1 and v not
in BR2AR`; every key of `AR2BR` is a single character, so the length guard
always holds). -/
def buildBR2AR : List (Char × List Char) → List (List Char × Char) → List (List Char × Char)
  | [], acc => acc
  | (k, v) :: rest, acc =>
    if (acc.lookup v).isSome then buildBR2AR rest acc
    else buildBR2AR rest (acc ++ [(v, k)])

/-- `BR2AR` of `app.py` (first-wins inverse of `AR2BR`). -/
def BR2AR : List (List Char × Char) := buildBR2AR AR2BR []

/-- `EXTRA_BR2AR` of `app.py`. -/
def EXTRA_BR2AR : List (Char × Char) :=
  [('⠂', '،'), ('⠲', '.'), ('⠆', '؛'), ('⠒', ':'),
   ('⠦', '؟'), ('⠖', '!'), ('⠤', '-'), ('⠶', '"')]

/-- `clean_text_pipeline` of `app.py`: newline canonicalization, NFKC fold,
optional tashkeel strip. -/
def clean_text_pipeline (cs : List Char) (keep_tashkeel : Bool) : List Char :=
  let t := normalize_unicode (normalize_newlines cs)
  if keep_tashkeel then t else remove_tashkeel t

/-- `AR2BR.get(ch, ch)` — the forward lookup with pass-through fallback used
by `app.py`'s `arabic_to_braille`. -/
def ar2brCells (c : Char) : List Char :=
  (AR2BR.lookup c).getD [c]

/-- One non-ligature step of `app.py`'s forward scan: emitted cells and the
numeric-mode flag after the step. -/
def ar2brStep (c : Char) (inNum : Bool) : List Char × Bool :=
  if pyIsDigit c then
    ((if inNum then [] else [NUM_SIGN]) ++ [(DIGIT_TO_BR.lookup c).getD c], true)
  else
    (ar2brCells c, false)

/-- The scanning loop of `app.py`'s `arabic_to_braille`: lām-alef ligature
test first (needs one character of lookahead), then the digit/ordinary
step. -/
def ar2brLoop : List Char → Bool → List Char
  | [], _ => []
  | [c], inNum => (ar2brStep c inNum).1
  | c :: c2 :: rest, inNum =>
    if c = 'ل' ∧ ALEF_FORMS.contains c2 then
      ar2brCells 'ل' ++ ar2brCells c2 ++ ar2brLoop rest false
    else
      (ar2brStep c inNum).1 ++ ar2brLoop (c2 :: rest) (ar2brStep c inNum).2

/-- `arabic_to_braille` of `app.py`. -/
def arabic_to_braille (cs : List Char) (keep_tashkeel : Bool) : List Char :=
  ar2brLoop (normalize_digits_to_latin (clean_text_pipeline cs keep_tashkeel)) false

/-- `BR2AR.get(ch, EXTRA_BR2AR.get(ch, ch))` — the ordinary single-cell
reverse lookup of `app.py`. -/
def br2arOrd (c : Char) : Char :=
  match BR2AR.lookup [c] with
  | some a => a
  | none => (EXTRA_BR2AR.lookup c).getD c

/-- One single-cell step of `app.py`'s reverse scan (everything but the
doubled-cell quotation test): emitted characters and next numeric-mode
flag.  The digit emission uses the total stand-in for
`LATIN_TO_ARABIC_DIGITS[digit]`; `br2arStepO` is the faithful raising
version. -/
def br2arStep (ad : Bool) (c : Char) (inNum : Bool) : List Char × Bool :=
  if c = NUM_SIGN then ([], true)
  else if isWs c then ([c], false)
  else if inNum then
    match BR_TO_DIGIT.lookup c with
    | some d => ([if ad then latin_to_arabic_digit d else d], true)
    | none => ([br2arOrd c], false)
  else ([br2arOrd c], false)

/-- The scanning loop of `app.py`'s `braille_to_arabic`: doubled-cell
quotation sequences first (one cell of lookahead), then the single-cell
step. -/
def br2arLoop (ad : Bool) : List Char → Bool → List Char
  | [], _ => []
  | [c], inNum => (br2arStep ad c inNum).1
  | c :: c2 :: rest, inNum =>
    if c = '⠦' ∧ c2 = '⠦' then '«' :: br2arLoop ad rest false
    else if c = '⠴' ∧ c2 = '⠴' then '»' :: br2arLoop ad rest false
    else (br2arStep ad c inNum).1 ++ br2arLoop ad (c2 :: rest) (br2arStep ad c inNum).2

/-- `braille_to_arabic` of `app.py` (`clean_text_pipeline` is called with
`keep_tashkeel=True`, so line endings are canonicalized and NFKC is applied
but nothing is stripped). -/
def braille_to_arabic (cs : List Char) (arabic_digits : Bool) : List Char :=
  br2arLoop arabic_digits (clean_text_pipeline cs true) false

/-- Faithful single-cell reverse step: the dictionary indexing
`LATIN_TO_ARABIC_DIGITS[digit]` raises `KeyError` on a missing key, modelled
as `none`. -/
def br2arStepO (ad : Bool) (c : Char) (inNum : Bool) : Option (List Char × Bool) :=
  if c = NUM_SIGN then some ([], true)
  else if isWs c then some ([c], false)
  else if inNum then
    match BR_TO_DIGIT.lookup c with
    | some d =>
      if ad then (LATIN_TO_ARABIC_DIGITS.lookup d).map (fun a => ([a], true))
      else some ([d], true)
    | none => some ([br2arOrd c], false)
  else some ([br2arOrd c], false)

/-- Faithful reverse scanning loop of `app.py`: `none` models an
uncaught `KeyError`. -/
def br2arLoopO (ad : Bool) : List Char → Bool → Option (List Char)
  | [], _ => some []
  | [c], inNum => (br2arStepO ad c inNum).map (·.1)
  | c :: c2 :: rest, inNum =>
    if c = '⠦' ∧ c2 = '⠦' then (br2arLoopO ad rest false).map (fun t => '«' :: t)
    else if c = '⠴' ∧ c2 = '⠴' then (br2arLoopO ad rest false).map (fun t => '»' :: t)
    else do
      let p ← br2arStepO ad c inNum
      let t ← br2arLoopO ad (c2 :: rest) p.2
      pure (p.1 ++ t)

/-- Faithful `braille_to_arabic` of `app.py`, propagating the possible
`KeyError` of the digit indexing. -/
def braille_to_arabicO (cs : List Char) (arabic_digits : Bool) : Option (List Char) :=
  br2arLoopO arabic_digits (clean_text_pipeline cs true) false

/-- `unsupportedIdx text idx` — the scan of
`build_unsupported_report_ar_to_br` in `app.py`: every index/character pair
that is neither a digit (`ch.isdigit()`) nor a key of `AR2BR`, in text
order. -/
def unsupportedIdx : List Char → Nat → List (Nat × Char)
  | [], _ => []
  | c :: rest, idx =>
    if pyIsDigit c || (AR2BR.lookup c).isSome then unsupportedIdx rest (idx + 1)
    else (idx, c) :: unsupportedIdx rest (idx + 1)

/-- The context snippet `text[max(0, idx - 10) : idx + 11].replace("\n", "⏎")`
recorded by the coverage reporter (natural subtraction gives the `max`). -/
def contextSnippet (text : List Char) (idx : Nat) : List Char :=
  ((text.take (idx + 11)).drop (idx - 10)).map (fun c => if c = '\n' then '⏎' else c)

/-- `counts[ch]` of `build_unsupported_report_ar_to_br`: each unsupported
occurrence increments the counter of its character. -/
def report_counts (text : List Char) (ch : Char) : Nat :=
  ((unsupportedIdx text 0).filter (fun p => p.2 = ch)).length

/-- `examples[ch]` of `build_unsupported_report_ar_to_br`: context snippets
of the unsupported occurrences of `ch` in text order; the
`if len(examples[ch]) < 3` guard keeps exactly the first three. -/
def report_examples (text : List Char) (ch : Char) : List (List Char) :=
  ((((unsupportedIdx text 0).filter (fun p => p.2 = ch))).take 3).map
    (fun p => contextSnippet text p.1)

end App

namespace Nara

/-- `AR2BR_LETTERS` of `NaraMa3an.py`, in source order. -/
def AR2BR_LETTERS : List (Char × List Char) :=
  [('ا', ['⠁']), ('أ', ['⠁']), ('إ', ['⠁']), ('آ', ['⠁']),
   ('ب', ['⠃']), ('ت', ['⠞']), ('ث', ['⠹']), ('ج', ['⠚']), ('ح', ['⠱']), ('خ', ['⠭']),
   ('د', ['⠙']), ('ذ', ['⠮']), ('ر', ['⠗']), ('ز', ['⠵']), ('س', ['⠎']), ('ش', ['⠩']),
   ('ص', ['⠯']), ('ض', ['⠷']), ('ط', ['⠾']), ('ظ', ['⠿']), ('ع', ['⠫']), ('غ', ['⠣']),
   ('ف', ['⠋']), ('ق', ['⠟']), ('ك', ['⠅']), ('ل', ['⠇']), ('م', ['⠍']), ('ن', ['⠝']),
   ('ه', ['⠓']), ('ة', ['⠓']), ('و', ['⠺']), ('ي', ['⠊']), ('ى', ['⠊']),
   ('ء', ['⠄']), ('ؤ', ['⠺', '⠄']), ('ئ', ['⠊', '⠄'])]

/-- `AR2BR_PUNCT` of `NaraMa3an.py`, in source order (note the single-cell
`«`/`»` scheme and the ellipsis). -/
def AR2BR_PUNCT : List (Char × List Char) :=
  [(' ', [' ']), ('\n', ['\n']), ('\t', ['\t']),
   ('،', ['⠂']), (',', ['⠂']),
   ('.', ['⠲']), ('۔', ['⠲']),
   ('؛', ['⠆']), (';', ['⠆']),
   (':', ['⠒']),
   ('؟', ['⠦']), ('?', ['⠦']),
   ('!', ['⠖']),
   ('«', ['⠦']), ('»', ['⠴']),
   ('“', ['⠦']), ('”', ['⠴']),
   ('"', ['⠶']),
   ('(', ['⠶']), (')', ['⠶']),
   ('-', ['⠤']), ('_', ['⠤']), ('ـ', ['⠤']),
   ('…', ['⠄', '⠄', '⠄'])]

/-- `AR2BR = {**AR2BR_LETTERS, **AR2BR_PUNCT}`; the two key sets are
disjoint, so first-match lookup on the concatenation coincides with the
merged dictionary. -/
def AR2BR : List (Char × List Char) := AR2BR_LETTERS ++ AR2BR_PUNCT

/-- `BR2AR_LETTERS = {v: k for k, v in AR2BR_LETTERS.items()}`: for a
repeated value the **last** key wins, which is first-match lookup on the
reversed swapped list. -/
def BR2AR_LETTERS : List (List Char × Char) :=
  (AR2BR_LETTERS.map (fun p => (p.2, p.1))).reverse

/-- `EXTRA_BR2AR` of `NaraMa3an.py` (single `⠦` decodes to `«`, single `⠴`
to `»`). -/
def EXTRA_BR2AR : List (Char × Char) :=
  [('⠂', '،'), ('⠲', '.'), ('⠆', '؛'), ('⠒', ':'),
   ('⠖', '!'), ('⠤', '-'), ('⠶', '"'), ('⠦', '«'), ('⠴', '»')]

/-- `unknown_policy_apply` of `NaraMa3an.py` (the default policy string is
`"qmark"`, but any string other than `"pass"`/`"drop"` yields the sentinel
glyph, exactly as in the source). -/
def unknown_policy_apply (ch : Char) (policy : String) : List Char :=
  if policy = "pass" then [ch]
  else if policy = "drop" then []
  else ['⍰']

/-- One non-ligature step of `NaraMa3an.py`'s forward scan. -/
def ar2brStep (policy : String) (c : Char) (inNum : Bool) : List Char × Bool :=
  if pyIsDigit c then
    ((if inNum then [] else [NUM_SIGN]) ++
      (match DIGIT_TO_BR.lookup c with
       | some x => [x]
       | none => unknown_policy_apply c policy), true)
  else
    ((match AR2BR.lookup c with
      | some v => v
      | none => unknown_policy_apply c policy), false)

/-- The scanning loop of `NaraMa3an.py`'s `arabic_to_braille`. -/
def ar2brLoop (policy : String) : List Char → Bool → List Char
  | [], _ => []
  | [c], inNum => (ar2brStep policy c inNum).1
  | c :: c2 :: rest, inNum =>
    if c = 'ل' ∧ ALEF_FORMS.contains c2 then
      (AR2BR.lookup 'ل').getD (unknown_policy_apply 'ل' policy) ++
      (AR2BR.lookup c2).getD (unknown_policy_apply c2 policy) ++
      ar2brLoop policy rest false
    else (ar2brStep policy c inNum).1 ++ ar2brLoop policy (c2 :: rest) (ar2brStep policy c inNum).2

/-- `arabic_to_braille` of `NaraMa3an.py` (no NFKC fold in this file). -/
def arabic_to_braille (cs : List Char) (keep_tashkeel : Bool) (policy : String) : List Char :=
  let t := normalize_newlines cs
  let t := if keep_tashkeel then t else remove_tashkeel t
  ar2brLoop policy (normalize_digits_to_latin t) false

/-- The local `unknown_out` closure of `NaraMa3an.py`'s
`braille_to_arabic`. -/
def unknown_out (policy : String) (cell : Char) : List Char :=
  if policy = "pass" then [cell]
  else if policy = "drop" then []
  else ['⍰']

/-- `BR2AR_LETTERS.get(ch, EXTRA_BR2AR.get(ch, unknown_out(ch)))` — the
ordinary single-cell reverse lookup of `NaraMa3an.py`. -/
def br2arOrd (policy : String) (c : Char) : List Char :=
  match BR2AR_LETTERS.lookup [c] with
  | some a => [a]
  | none =>
    match EXTRA_BR2AR.lookup c with
    | some a => [a]
    | none => unknown_out policy c

/-- The scanning loop of `NaraMa3an.py`'s `braille_to_arabic`.  The numeric
branch with no digit mapping executes `in_number = False; continue`, i.e. it
re-dispatches on the **same** cell with numeric mode off — embedded as the
recursive call on `c :: rest` with the flag cleared (the flag strictly
decreases, so the measure `2·length + flag` shows termination, exactly as
the Python loop terminates because `i` never decreases twice in a row). -/
def br2arLoop (ad : Bool) (policy : String) : List Char → Bool → List Char
  | [], _ => []
  | c :: rest, true =>
    if c = NUM_SIGN then br2arLoop ad policy rest true
    else if isWs c then c :: br2arLoop ad policy rest false
    else
      match BR_TO_DIGIT.lookup c with
      | some d => (if ad then latin_to_arabic_digit d else d) :: br2arLoop ad policy rest true
      | none => br2arLoop ad policy (c :: rest) false
  | c :: rest, false =>
    if c = NUM_SIGN then br2arLoop ad policy rest true
    else if isWs c then c :: br2arLoop ad policy rest false
    else br2arOrd policy c ++ br2arLoop ad policy rest false
termination_by cs b => 2 * cs.length + (if b then 1 else 0)
decreasing_by all_goals (simp_wf; try omega)

/-- `braille_to_arabic` of `NaraMa3an.py` (total stand-in for the digit
indexing; `braille_to_arabicO` is the faithful raising version). -/
def braille_to_arabic (cs : List Char) (arabic_digits : Bool) (policy : String) : List Char :=
  br2arLoop arabic_digits policy (normalize_newlines cs) false

/-- Faithful reverse loop of `NaraMa3an.py`: `none` models an uncaught
`KeyError` from `LATIN_TO_ARABIC_DIGITS[digit]`. -/
def br2arLoopO (ad : Bool) (policy : String) : List Char → Bool → Option (List Char)
  | [], _ => some []
  | c :: rest, true =>
    if c = NUM_SIGN then br2arLoopO ad policy rest true
    else if isWs c then (br2arLoopO ad policy rest false).map (fun t => c :: t)
    else
      match BR_TO_DIGIT.lookup c with
      | some d =>
        if ad then
          (LATIN_TO_ARABIC_DIGITS.lookup d).bind
            (fun a => (br2arLoopO ad policy rest true).map (fun t => a :: t))
        else (br2arLoopO ad policy rest true).map (fun t => d :: t)
      | none => br2arLoopO ad policy (c :: rest) false
  | c :: rest, false =>
    if c = NUM_SIGN then br2arLoopO ad policy rest true
    else if isWs c then (br2arLoopO ad policy rest false).map (fun t => c :: t)
    else (br2arLoopO ad policy rest false).map (fun t => br2arOrd policy c ++ t)
termination_by cs b => 2 * cs.length + (if b then 1 else 0)
decreasing_by all_goals (simp_wf; try omega)

/-- Faithful `braille_to_arabic` of `NaraMa3an.py`, propagating the possible
`KeyError` of the digit indexing. -/
def braille_to_arabicO (cs : List Char) (arabic_digits : Bool) (policy : String) : Option (List Char) :=
  br2arLoopO arabic_digits policy (normalize_newlines cs) false

/-- Number of scan positions of `NaraMa3an.py`'s forward loop at which the
unknown-symbol policy is consulted (a digit missing from `DIGIT_TO_BR`, or
an ordinary character missing from `AR2BR`); follows the loop's own
decomposition into ligature / digit / ordinary steps. -/
def unmappedStep (c : Char) : Nat :=
  if pyIsDigit c then (if (DIGIT_TO_BR.lookup c).isNone then 1 else 0)
  else (if (AR2BR.lookup c).isNone then 1 else 0)

/-- Unknown-policy consultations over the whole forward scan. -/
def unmappedCount : List Char → Nat
  | [] => 0
  | [c] => unmappedStep c
  | c :: c2 :: rest =>
    if c = 'ل' ∧ ALEF_FORMS.contains c2 then
      (if (AR2BR.lookup 'ل').isNone then 1 else 0) +
      (if (AR2BR.lookup c2).isNone then 1 else 0) + unmappedCount rest
    else unmappedStep c + unmappedCount (c2 :: rest)

end Nara

namespace Gui

/-- `AR2BR` of `arabic_braille_gui_v2.py`, in source order (single-cell
`«`/`»` scheme; `؟`/`?` declared last). -/
def AR2BR : List (Char × List Char) :=
  [('ا', ['⠁']), ('أ', ['⠁']), ('إ', ['⠁']), ('آ', ['⠁']),
   ('ب', ['⠃']), ('ت', ['⠞']), ('ث', ['⠹']), ('ج', ['⠚']), ('ح', ['⠱']), ('خ', ['⠭']),
   ('د', ['⠙']), ('ذ', ['⠮']), ('ر', ['⠗']), ('ز', ['⠵']), ('س', ['⠎']), ('ش', ['⠩']),
   ('ص', ['⠯']), ('ض', ['⠷']), ('ط', ['⠾']), ('ظ', ['⠿']), ('ع', ['⠫']), ('غ', ['⠣']),
   ('ف', ['⠋']), ('ق', ['⠟']), ('ك', ['⠅']), ('ل', ['⠇']), ('م', ['⠍']), ('ن', ['⠝']),
   ('ه', ['⠓']), ('ة', ['⠓']), ('و', ['⠺']), ('ي', ['⠊']), ('ى', ['⠊']),
   ('ء', ['⠄']), ('ؤ', ['⠺', '⠄']), ('ئ', ['⠊', '⠄']),
   (' ', [' ']), ('\n', ['\n']), ('\t', ['\t']),
   ('،', ['⠂']), (',', ['⠂']),
   ('.', ['⠲']), ('۔', ['⠲']),
   ('؛', ['⠆']), (';', ['⠆']),
   (':', ['⠒']),
   ('!', ['⠖']),
   ('-', ['⠤']), ('_', ['⠤']), ('ـ', ['⠤']),
   ('«', ['⠦']), ('»', ['⠴']),
   ('“', ['⠦']), ('”', ['⠴']),
   ('"', ['⠶']),
   ('(', ['⠶']), (')', ['⠶']),
   ('؟', ['⠦']), ('?', ['⠦'])]

/-- `BR2AR` of `arabic_braille_gui_v2.py`: plain overwrite (`BR2AR[v] = k`
with no membership test), so the **last** key wins — first-match lookup on
the reversed swapped list.  Every key of `AR2BR` is a single character, so
the `len(k) == 1` guard always holds. -/
def BR2AR : List (List Char × Char) :=
  (AR2BR.map (fun p => (p.2, p.1))).reverse

/-- `EXTRA_BR2AR` of `arabic_braille_gui_v2.py`. -/
def EXTRA_BR2AR : List (Char × Char) :=
  [('⠂', '،'), ('⠲', '.'), ('⠆', '؛'), ('⠒', ':'),
   ('⠖', '!'), ('⠤', '-'), ('⠶', '"'), ('⠴', '»'), ('⠦', '؟')]

/-- `BR2AR.get(ch, EXTRA_BR2AR.get(ch, "؟"))` — the ordinary single-cell
reverse lookup of `arabic_braille_gui_v2.py`. -/
def br2arOrd (c : Char) : Char :=
  match BR2AR.lookup [c] with
  | some a => a
  | none => (EXTRA_BR2AR.lookup c).getD '؟'

/-- The scanning loop of `arabic_braille_gui_v2.py`'s `braille_to_arabic`:
in numeric mode a cell with no digit mapping clears the mode and emits its
ordinary lookup in the same iteration. -/
def br2arLoop (ad : Bool) : List Char → Bool → List Char
  | [], _ => []
  | c :: rest, inNum =>
    if c = NUM_SIGN then br2arLoop ad rest true
    else if isWs c then c :: br2arLoop ad rest false
    else if inNum then
      match BR_TO_DIGIT.lookup c with
      | some d => (if ad then latin_to_arabic_digit d else d) :: br2arLoop ad rest true
      | none => br2arOrd c :: br2arLoop ad rest false
    else br2arOrd c :: br2arLoop ad rest false

/-- `braille_to_arabic` of `arabic_braille_gui_v2.py`. -/
def braille_to_arabic (cs : List Char) (arabic_digits : Bool) : List Char :=
  br2arLoop arabic_digits (normalize_newlines cs) false

end Gui

/-- Modelled from the spec, §4.3 step 1 ("Normalize line endings only"): a
reverse transliterator whose input normalization replaces CRLF and lone CR
by LF and is otherwise the identity, scanning exactly as `app.py`'s
`braille_to_arabic` scans afterwards.  Used to compare the spec's claimed
normalization with the one `app.py` actually performs. -/
def br2ar_line_endings_only (cs : List Char) (arabic_digits : Bool) : List Char :=
  App.br2arLoop arabic_digits (normalize_newlines cs) false

/-- The digit-output-script adjustment of the round-trip claim: with
`arabic_digit_output` set, an ASCII digit of the input is expected back as
its Arabic-indic counterpart, every other character as itself. -/
def digit_output_script (ad : Bool) (c : Char) : Char :=
  if ad then (LATIN_TO_ARABIC_DIGITS.lookup c).getD c else c

/-- Number of maximal runs of (Python) digits in a text, starting from a
given "previous character was a digit" flag; run starts are exactly where
the forward transliterators emit the Numeric Indicator. -/
def digitRuns : List Char → Bool → Nat
  | [], _ => 0
  | c :: rest, prev =>
    if pyIsDigit c then (if prev then 0 else 1) + digitRuns rest true
    else digitRuns rest false

/-- A character of the Unicode Braille Patterns block, or whitespace
(including carriage return): the alphabet a Braille input is made of. -/
def brailleOrWs (c : Char) : Bool :=
  (decide (0x2800 ≤ c.toNat) && decide (c.toNat ≤ 0x28FF)) || isWs c || c = '\r'

/-- The ten Braille digit cells (the values of `DIGIT_TO_BR`). -/
def digitCells : List Char :=
  ['⠁', '⠃', '⠉', '⠙', '⠑', '⠋', '⠛', '⠓', '⠊', '⠚']

namespace App

/-- The round-trip claim's character set: characters of `app.py`'s forward
table whose image decodes back to themselves — the forward-mapped characters
minus the documented collisions (alef variants `أ إ آ`, `ة`, `ى`, the
multi-cell `ؤ ئ`, and the punctuation variants `, ; ? _ ـ ۔ “ ” ( )` and
`؟ « »` that lose the first-wins resolution or share the `⠦`/`⠴` cells) —
plus ASCII digits and whitespace. -/
def SAFE : List Char :=
  ['ا', 'ب', 'ت', 'ث', 'ج', 'ح', 'خ', 'د', 'ذ', 'ر', 'ز', 'س', 'ش',
   'ص', 'ض', 'ط', 'ظ', 'ع', 'غ', 'ف', 'ق', 'ك', 'ل', 'م', 'ن', 'ه',
   'و', 'ي', 'ء',
   '0', '1', '2', '3', '4', '5', '6', '7', '8', '9',
   ' ', '\n', '\t',
   '،', '.', '؛', ':', '!', '-', '"']

/-- Membership in the round-trip claim's character set. -/
def safeChar (c : Char) : Bool := SAFE.elem c

/-- First Braille cell the ordinary forward branch emits for a character. -/
def firstCell (c : Char) : Char := (ar2brCells c).headD c

/-- Guard on the character that follows a digit: it must be another digit
or one whose leading cell is not a Braille digit cell (otherwise the
reverse scan, still in numeric mode, reads that cell as a digit). -/
def headOK : List Char → Bool
  | [] => true
  | c :: _ => isAsciiDigit c || !(digitCells.contains (firstCell c))

/-- The amended round-trip hypothesis: every character is safe, and no
digit is immediately followed by a character whose leading cell is a digit
cell. -/
def chainSafe : List Char → Bool
  | [] => true
  | c :: rest => safeChar c && (!(isAsciiDigit c) || headOK rest) && chainSafe rest

end App

end ArabicBraille

namespace ArabicBraille

/-! ## Association-list lemmas -/

theorem lookup_some_mem_values {α β : Type} [BEq α] {l : List (α × β)} {a : α} {b : β}
    (h : l.lookup a = some b) : b ∈ l.map Prod.snd := by
  induction l with
  | nil => simp [List.lookup] at h
  | cons p rest ih =>
    obtain ⟨k, v⟩ := p
    simp only [List.lookup] at h
    simp only [List.map]
    cases hkv : a == k with
    | true =>
      rw [hkv] at h
      simp only [Option.some.injEq] at h
      exact h ▸ List.mem_cons_self _ _
    | false =>
      rw [hkv] at h
      exact List.mem_cons_of_mem _ (ih h)

theorem lookup_some_mem_keys {α β : Type} [BEq α] [LawfulBEq α] {l : List (α × β)} {a : α} {b : β}
    (h : l.lookup a = some b) : a ∈ l.map Prod.fst := by
  induction l with
  | nil => simp [List.lookup] at h
  | cons p rest ih =>
    obtain ⟨k, v⟩ := p
    simp only [List.lookup] at h
    simp only [List.map]
    cases hkv : a == k with
    | true => exact (eq_of_beq hkv) ▸ List.mem_cons_self _ _
    | false =>
      rw [hkv] at h
      exact List.mem_cons_of_mem _ (ih h)

theorem lookup_eq_none_iff {α β : Type} [BEq α] [LawfulBEq α] {l : List (α × β)} {a : α} :
    l.lookup a = none ↔ a ∉ l.map Prod.fst := by
  induction l with
  | nil => simp [List.lookup]
  | cons p rest ih =>
    obtain ⟨k, v⟩ := p
    simp only [List.lookup, List.map]
    cases hkv : a == k with
    | true =>
      simp [eq_of_beq hkv]
    | false =>
      simp only [List.mem_cons, not_or]
      constructor
      · intro hn
        exact ⟨ne_of_beq_false hkv, ih.mp hn⟩
      · intro hn
        exact ih.mpr hn.2

/-! ## Scan-loop shape lemmas (`app.py`) -/

namespace App

theorem ar2brLoop_nil (b : Bool) : ar2brLoop [] b = [] := rfl

theorem ar2brLoop_cons_ne_lam {c : Char} (s : List Char) (b : Bool) (h : c ≠ 'ل') :
    ar2brLoop (c :: s) b =
      (ar2brStep c b).1 ++ ar2brLoop s (ar2brStep c b).2 := by
  cases s with
  | nil => simp [ar2brLoop]
  | cons c2 rest =>
    rw [ar2brLoop, if_neg (fun hh => h hh.1)]

theorem ar2brLoop_lam_alef {c2 : Char} (rest : List Char) (b : Bool)
    (h : ALEF_FORMS.contains c2 = true) :
    ar2brLoop ('ل' :: c2 :: rest) b =
      ar2brCells 'ل' ++ ar2brCells c2 ++ ar2brLoop rest false := by
  rw [ar2brLoop, if_pos ⟨rfl, h⟩]

theorem ar2brLoop_lam_not_alef {c2 : Char} (rest : List Char) (b : Bool)
    (h : ALEF_FORMS.contains c2 = false) :
    ar2brLoop ('ل' :: c2 :: rest) b =
      (ar2brStep 'ل' b).1 ++ ar2brLoop (c2 :: rest) (ar2brStep 'ل' b).2 := by
  rw [ar2brLoop, if_neg (fun hh => by rw [hh.2] at h; exact absurd h (by decide))]

theorem ar2brLoop_lam_single (b : Bool) :
    ar2brLoop ['ل'] b = (ar2brStep 'ل' b).1 ++ ar2brLoop [] (ar2brStep 'ل' b).2 := by
  simp [ar2brLoop]

theorem br2arLoop_cons (ad : Bool) {c : Char} (s : List Char) (b : Bool)
    (h1 : c ≠ '⠦') (h2 : c ≠ '⠴') :
    br2arLoop ad (c :: s) b =
      (br2arStep ad c b).1 ++ br2arLoop ad s (br2arStep ad c b).2 := by
  cases s with
  | nil => simp [br2arLoop]
  | cons c2 rest =>
    rw [br2arLoop, if_neg (fun hh => h1 hh.1), if_neg (fun hh => h2 hh.1)]

theorem br2arLoop_openq (ad : Bool) (s : List Char) (b : Bool) :
    br2arLoop ad ('⠦' :: '⠦' :: s) b = '«' :: br2arLoop ad s false := by
  rw [br2arLoop, if_pos ⟨rfl, rfl⟩]

theorem br2arLoop_closeq (ad : Bool) (s : List Char) (b : Bool) :
    br2arLoop ad ('⠴' :: '⠴' :: s) b = '»' :: br2arLoop ad s false := by
  rw [br2arLoop, if_neg (fun hh => by exact absurd hh.1 (by decide)), if_pos ⟨rfl, rfl⟩]

end App

end ArabicBraille

namespace ArabicBraille

namespace App

theorem ar2brLoop_single (c : Char) (b : Bool) : ar2brLoop [c] b = (ar2brStep c b).1 := rfl

theorem ar2brLoop_cons_no_lig (c c2 : Char) (rest : List Char) (b : Bool)
    (h : ¬(c = 'ل' ∧ ALEF_FORMS.contains c2 = true)) :
    ar2brLoop (c :: c2 :: rest) b =
      (ar2brStep c b).1 ++ ar2brLoop (c2 :: rest) (ar2brStep c b).2 := by
  rw [ar2brLoop, if_neg h]

theorem br2arLoop_single (ad : Bool) (c : Char) (b : Bool) :
    br2arLoop ad [c] b = (br2arStep ad c b).1 := rfl

theorem br2arLoop_cons_no_pair (ad : Bool) (c c2 : Char) (rest : List Char) (b : Bool)
    (h1 : ¬(c = '⠦' ∧ c2 = '⠦')) (h2 : ¬(c = '⠴' ∧ c2 = '⠴')) :
    br2arLoop ad (c :: c2 :: rest) b =
      (br2arStep ad c b).1 ++ br2arLoop ad (c2 :: rest) (br2arStep ad c b).2 := by
  rw [br2arLoop, if_neg h1, if_neg h2]

end App

namespace Nara

theorem nara_ar2brLoop_single (p : String) (c : Char) (b : Bool) :
    ar2brLoop p [c] b = (ar2brStep p c b).1 := rfl

theorem nara_ar2brLoop_cons_no_lig (p : String) (c c2 : Char) (rest : List Char) (b : Bool)
    (h : ¬(c = 'ل' ∧ ALEF_FORMS.contains c2 = true)) :
    ar2brLoop p (c :: c2 :: rest) b =
      (ar2brStep p c b).1 ++ ar2brLoop p (c2 :: rest) (ar2brStep p c b).2 := by
  rw [ar2brLoop, if_neg h]

theorem nara_ar2brLoop_cons_ne_lam (p : String) {c : Char} (s : List Char) (b : Bool) (h : c ≠ 'ل') :
    ar2brLoop p (c :: s) b = (ar2brStep p c b).1 ++ ar2brLoop p s (ar2brStep p c b).2 := by
  cases s with
  | nil => simp [ar2brLoop]
  | cons c2 rest => exact nara_ar2brLoop_cons_no_lig p c c2 rest b (fun hh => h hh.1)

theorem nara_br2arLoop_true_digit (ad : Bool) (p : String) {c d : Char} (s : List Char)
    (hd : BR_TO_DIGIT.lookup c = some d) (h1 : c ≠ NUM_SIGN) (h2 : isWs c = false) :
    br2arLoop ad p (c :: s) true =
      (if ad then latin_to_arabic_digit d else d) :: br2arLoop ad p s true := by
  rw [br2arLoop, if_neg h1, if_neg (by simp [h2]), hd]

theorem nara_br2arLoop_true_nodigit (ad : Bool) (p : String) {c : Char} (s : List Char)
    (hd : BR_TO_DIGIT.lookup c = none) (h1 : c ≠ NUM_SIGN) (h2 : isWs c = false) :
    br2arLoop ad p (c :: s) true = br2arLoop ad p (c :: s) false := by
  rw [br2arLoop, if_neg h1, if_neg (by simp [h2]), hd]

theorem br2arLoop_false_ord (ad : Bool) (p : String) {c : Char} (s : List Char)
    (h1 : c ≠ NUM_SIGN) (h2 : isWs c = false) :
    br2arLoop ad p (c :: s) false = br2arOrd p c ++ br2arLoop ad p s false := by
  rw [br2arLoop, if_neg h1, if_neg (by simp [h2])]

end Nara

namespace Gui

theorem gui_br2arLoop_true_digit (ad : Bool) {c d : Char} (s : List Char)
    (hd : BR_TO_DIGIT.lookup c = some d) (h1 : c ≠ NUM_SIGN) (h2 : isWs c = false) :
    br2arLoop ad (c :: s) true =
      (if ad then latin_to_arabic_digit d else d) :: br2arLoop ad s true := by
  rw [br2arLoop, if_neg h1, if_neg (by simp [h2]), if_pos rfl, hd]

theorem gui_br2arLoop_true_nodigit (ad : Bool) {c : Char} (s : List Char)
    (hd : BR_TO_DIGIT.lookup c = none) (h1 : c ≠ NUM_SIGN) (h2 : isWs c = false) :
    br2arLoop ad (c :: s) true = br2arOrd c :: br2arLoop ad s false := by
  rw [br2arLoop, if_neg h1, if_neg (by simp [h2]), if_pos rfl, hd]

end Gui

end ArabicBraille

namespace ArabicBraille

namespace App

theorem ar2brStep_digit {c : Char} (b : Bool) (h : pyIsDigit c = true) :
    ar2brStep c b = ((if b then [] else [NUM_SIGN]) ++ [(DIGIT_TO_BR.lookup c).getD c], true) := by
  rw [ar2brStep, if_pos h]

theorem ar2brStep_ord {c : Char} (b : Bool) (h : pyIsDigit c = false) :
    ar2brStep c b = (ar2brCells c, false) := by
  rw [ar2brStep, if_neg (by simp [h])]

theorem br2arStep_numsign (ad : Bool) (b : Bool) : br2arStep ad NUM_SIGN b = ([], true) := by
  rw [br2arStep, if_pos rfl]

theorem br2arStep_ws (ad : Bool) {c : Char} (b : Bool) (h : isWs c = true) (h1 : c ≠ NUM_SIGN) :
    br2arStep ad c b = ([c], false) := by
  rw [br2arStep, if_neg h1, if_pos h]

theorem br2arStep_true_digit (ad : Bool) {c d : Char}
    (hd : BR_TO_DIGIT.lookup c = some d) (h1 : c ≠ NUM_SIGN) (h2 : isWs c = false) :
    br2arStep ad c true = ([if ad then latin_to_arabic_digit d else d], true) := by
  rw [br2arStep, if_neg h1, if_neg (by simp [h2]), if_pos rfl, hd]

theorem br2arStep_true_nodigit (ad : Bool) {c : Char}
    (hd : BR_TO_DIGIT.lookup c = none) (h1 : c ≠ NUM_SIGN) (h2 : isWs c = false) :
    br2arStep ad c true = ([br2arOrd c], false) := by
  rw [br2arStep, if_neg h1, if_neg (by simp [h2]), if_pos rfl, hd]

theorem br2arStep_false (ad : Bool) {c : Char} (h1 : c ≠ NUM_SIGN) (h2 : isWs c = false) :
    br2arStep ad c false = ([br2arOrd c], false) := by
  rw [br2arStep, if_neg h1, if_neg (by simp [h2]), if_neg (by simp)]

end App

/-- Every key of the Braille-digit reverse table is a Braille digit cell,
hence neither the Numeric Indicator, nor whitespace, nor one of the
quotation cells `⠦`/`⠴`. -/
theorem brToDigit_key_facts :
    ∀ x ∈ BR_TO_DIGIT.map Prod.fst,
      x ≠ NUM_SIGN ∧ isWs x = false ∧ x ≠ '⠦' ∧ x ≠ '⠴' := by decide

/-! ## Claim theorems -/

/-- C3: in `app.py`'s `braille_to_arabic`, the two-cell sequences `⠦⠦` and
`⠴⠴` are tested before any single-cell lookup and decode to `«` and `»`
respectively, in any numeric-mode state; a single `⠦` cell not followed by
another `⠦` always decodes to `؟`, independently of the surrounding context
and of the numeric-mode state. -/
theorem C3_quote_resolution :
    (∀ (ad b : Bool) (s : List Char),
      App.br2arLoop ad ('⠦' :: '⠦' :: s) b = '«' :: App.br2arLoop ad s false) ∧
    (∀ (ad b : Bool) (s : List Char),
      App.br2arLoop ad ('⠴' :: '⠴' :: s) b = '»' :: App.br2arLoop ad s false) ∧
    (∀ (ad b : Bool) (s : List Char), s.head? ≠ some '⠦' →
      App.br2arLoop ad ('⠦' :: s) b = '؟' :: App.br2arLoop ad s false) ∧
    App.braille_to_arabic "⠦⠦⠴⠴⠦".data true = "«»؟".data := by
  have hstep : ∀ x y : Bool, App.br2arStep x '⠦' y = (['؟'], false) := by decide
  refine ⟨fun ad b s => App.br2arLoop_openq ad s b,
          fun ad b s => App.br2arLoop_closeq ad s b, ?_, by decide⟩
  intro ad b s h
  cases s with
  | nil => rw [App.br2arLoop_single, hstep]; rfl
  | cons c2 rest =>
    have hc2 : c2 ≠ '⠦' := by simpa using h
    rw [App.br2arLoop_cons_no_pair ad '⠦' c2 rest b (fun hh => hc2 hh.2)
          (fun hh => absurd hh.1 (by decide)), hstep]
    rfl

/-- Witness for C3 at a concrete input. -/
theorem C3_witness :
    App.br2arLoop false ('⠦' :: [' ']) true = '؟' :: App.br2arLoop false [' '] false :=
  C3_quote_resolution.2.2.1 false true [' '] (by decide)

/-- C7: the lām-alef ligature rule of the forward transliterators emits the
lām cell followed by the alef form's own cell and nothing else (so
`to_braille("لا") = to_braille("ل") ++ to_braille("ا")` in both `app.py` and
`NaraMa3an.py`), and whenever it fires it resets numeric mode and advances
two codepoints. -/
theorem C7_lam_alef_ligature :
    App.arabic_to_braille "لا".data false =
      App.arabic_to_braille "ل".data false ++ App.arabic_to_braille "ا".data false ∧
    Nara.arabic_to_braille "لا".data false "qmark" =
      Nara.arabic_to_braille "ل".data false "qmark" ++
        Nara.arabic_to_braille "ا".data false "qmark" ∧
    (∀ (b : Bool) (c2 : Char) (rest : List Char), ALEF_FORMS.contains c2 = true →
      App.ar2brLoop ('ل' :: c2 :: rest) b =
        App.ar2brCells 'ل' ++ App.ar2brCells c2 ++ App.ar2brLoop rest false) := by
  refine ⟨by decide, by decide, fun b c2 rest h => App.ar2brLoop_lam_alef rest b h⟩

/-- Witness for C7 at a concrete input. -/
theorem C7_witness :
    App.ar2brLoop ['ل', 'ا'] true =
      App.ar2brCells 'ل' ++ App.ar2brCells 'ا' ++ App.ar2brLoop [] false :=
  C7_lam_alef_ligature.2.2 true 'ا' [] (by decide)

/-- C10: a character accepted by Python's `str.isdigit` but absent from the
digit table (after Arabic-indic folding) still triggers numeric mode: the
forward scan emits the Numeric Indicator and then the fallback output (the
character itself in `app.py`, the unknown-policy result in `NaraMa3an.py`),
so a Numeric Indicator can immediately precede a non-digit output unit; at
the function level, the Devanagari digit `५` converts to `⠼५` under
`app.py` and under `NaraMa3an.py`'s pass-through policy. -/
theorem C10_nonascii_digit_numeric :
    (∀ (c : Char) (rest : List Char), pyIsDigit c = true → DIGIT_TO_BR.lookup c = none →
      App.ar2brLoop (c :: rest) false = NUM_SIGN :: c :: App.ar2brLoop rest true) ∧
    (∀ (p : String) (c : Char) (rest : List Char),
      pyIsDigit c = true → DIGIT_TO_BR.lookup c = none →
      Nara.ar2brLoop p (c :: rest) false =
        NUM_SIGN :: (Nara.unknown_policy_apply c p ++ Nara.ar2brLoop p rest true)) ∧
    App.arabic_to_braille "५".data false = "⠼५".data ∧
    Nara.arabic_to_braille "५".data false "pass" = "⠼५".data ∧
    Nara.arabic_to_braille "५".data false "drop" = "⠼".data := by
  refine ⟨?_, ?_, by decide, by decide, by decide⟩
  · intro c rest hdig hnone
    have hlam : c ≠ 'ل' := fun e => by rw [e] at hdig; exact absurd hdig (by decide)
    rw [App.ar2brLoop_cons_ne_lam rest false hlam, App.ar2brStep_digit false hdig, hnone]
    rfl
  · intro p c rest hdig hnone
    have hlam : c ≠ 'ل' := fun e => by rw [e] at hdig; exact absurd hdig (by decide)
    rw [Nara.nara_ar2brLoop_cons_ne_lam p rest false hlam]
    rw [Nara.ar2brStep, if_pos hdig, hnone]
    simp

/-- Witness for C10 at a concrete input. -/
theorem C10_witness :
    App.ar2brLoop ['५'] false = NUM_SIGN :: '५' :: App.ar2brLoop [] true :=
  C10_nonascii_digit_numeric.1 '५' [] (by decide) (by decide)

/-- C6: in all three reverse transliterators, while in numeric mode a cell
with a digit mapping is emitted as an Arabic-indic digit when
`arabic_digits` is set and as an ASCII digit otherwise (numeric mode
persists); a cell with no digit mapping exits numeric mode and is then
re-evaluated as an ordinary symbol in the same pass — it is not skipped, its
ordinary-lookup output appears at that position. -/
theorem C6_numeric_mode_reeval :
    (∀ (ad : Bool) (c d : Char) (s : List Char), BR_TO_DIGIT.lookup c = some d →
      App.br2arLoop ad (c :: s) true =
        (if ad then latin_to_arabic_digit d else d) :: App.br2arLoop ad s true) ∧
    (∀ (ad : Bool) (p : String) (c d : Char) (s : List Char), BR_TO_DIGIT.lookup c = some d →
      Nara.br2arLoop ad p (c :: s) true =
        (if ad then latin_to_arabic_digit d else d) :: Nara.br2arLoop ad p s true) ∧
    (∀ (ad : Bool) (c d : Char) (s : List Char), BR_TO_DIGIT.lookup c = some d →
      Gui.br2arLoop ad (c :: s) true =
        (if ad then latin_to_arabic_digit d else d) :: Gui.br2arLoop ad s true) ∧
    (∀ (ad : Bool) (c : Char) (s : List Char), BR_TO_DIGIT.lookup c = none →
      c ≠ NUM_SIGN → isWs c = false →
      (c = '⠦' → s.head? ≠ some '⠦') → (c = '⠴' → s.head? ≠ some '⠴') →
      App.br2arLoop ad (c :: s) true = App.br2arOrd c :: App.br2arLoop ad s false) ∧
    (∀ (ad : Bool) (p : String) (c : Char) (s : List Char), BR_TO_DIGIT.lookup c = none →
      c ≠ NUM_SIGN → isWs c = false →
      Nara.br2arLoop ad p (c :: s) true =
        Nara.br2arOrd p c ++ Nara.br2arLoop ad p s false) ∧
    (∀ (ad : Bool) (c : Char) (s : List Char), BR_TO_DIGIT.lookup c = none →
      c ≠ NUM_SIGN → isWs c = false →
      Gui.br2arLoop ad (c :: s) true = Gui.br2arOrd c :: Gui.br2arLoop ad s false) := by
  refine ⟨?_, ?_, ?_, ?_, ?_, ?_⟩
  · intro ad c d s hd
    obtain ⟨h1, h2, h3, h4⟩ := brToDigit_key_facts c (lookup_some_mem_keys hd)
    rw [App.br2arLoop_cons ad s true h3 h4, App.br2arStep_true_digit ad hd h1 h2]
    rfl
  · intro ad p c d s hd
    obtain ⟨h1, h2, _, _⟩ := brToDigit_key_facts c (lookup_some_mem_keys hd)
    exact Nara.nara_br2arLoop_true_digit ad p s hd h1 h2
  · intro ad c d s hd
    obtain ⟨h1, h2, _, _⟩ := brToDigit_key_facts c (lookup_some_mem_keys hd)
    exact Gui.gui_br2arLoop_true_digit ad s hd h1 h2
  · intro ad c s hd h1 h2 h3 h4
    cases s with
    | nil =>
      rw [App.br2arLoop_single, App.br2arStep_true_nodigit ad hd h1 h2]
      rfl
    | cons c2 rest =>
      rw [App.br2arLoop_cons_no_pair ad c c2 rest true
            (fun hh => h3 hh.1 (by simp [hh.2])) (fun hh => h4 hh.1 (by simp [hh.2])),
          App.br2arStep_true_nodigit ad hd h1 h2]
      rfl
  · intro ad p c s hd h1 h2
    rw [Nara.nara_br2arLoop_true_nodigit ad p s hd h1 h2, Nara.br2arLoop_false_ord ad p s h1 h2]
  · intro ad c s hd h1 h2
    exact Gui.gui_br2arLoop_true_nodigit ad s hd h1 h2

/-- Witness for C6 at concrete inputs: the digit cell `⠁` decodes to `١`
in numeric mode with Arabic-indic output, and the letter cell `⠞` exits
numeric mode and is decoded as `ت` in the same pass by all three
implementations. -/
theorem C6_witness :
    App.br2arLoop true ['⠁'] true = ['١'] ∧
    App.br2arLoop false ['⠞'] true = App.br2arOrd '⠞' :: [] ∧
    Nara.br2arLoop false "qmark" ['⠞'] true = Nara.br2arOrd "qmark" '⠞' ++ [] ∧
    Gui.br2arLoop false ['⠞'] true = Gui.br2arOrd '⠞' :: [] := by
  refine ⟨?_, ?_, ?_, ?_⟩
  · have h := C6_numeric_mode_reeval.1 true '⠁' '1' [] (by decide)
    simpa using h
  · have h := C6_numeric_mode_reeval.2.2.2.1 false '⠞' [] (by decide) (by decide) (by decide)
      (by intro hh; exact absurd hh (by decide)) (by intro hh; exact absurd hh (by decide))
    simpa using h
  · have h := C6_numeric_mode_reeval.2.2.2.2.1 false "qmark" '⠞' [] (by decide) (by decide) (by decide)
    simpa [Nara.br2arLoop] using h
  · have h := C6_numeric_mode_reeval.2.2.2.2.2 false '⠞' [] (by decide) (by decide) (by decide)
    simpa using h

end ArabicBraille

namespace ArabicBraille

/-- No value of `app.py`'s forward table contains the Numeric Indicator, so
the ordinary forward branch never emits one for a non-indicator input
character. -/
theorem count_numsign_ar2brCells {c : Char} (h : c ≠ NUM_SIGN) :
    (App.ar2brCells c).count NUM_SIGN = 0 := by
  rw [List.count_eq_zero]
  intro hmem
  rw [App.ar2brCells] at hmem
  cases hl : App.AR2BR.lookup c with
  | none =>
    rw [hl] at hmem
    simp at hmem
    exact h hmem.symm
  | some v =>
    rw [hl] at hmem
    have hv := lookup_some_mem_values hl
    have hall : ∀ w ∈ App.AR2BR.map Prod.snd, NUM_SIGN ∉ w := by decide
    exact hall v hv hmem

/-- The digit-branch emission (cell or pass-through fallback) is never the
Numeric Indicator, provided the character itself is not. -/
theorem digit_cell_ne_numsign {c : Char} (h : c ≠ NUM_SIGN) :
    (DIGIT_TO_BR.lookup c).getD c ≠ NUM_SIGN := by
  cases hl : DIGIT_TO_BR.lookup c with
  | none => simpa using h
  | some v =>
    have hv := lookup_some_mem_values hl
    have hall : ∀ w ∈ DIGIT_TO_BR.map Prod.snd, w ≠ NUM_SIGN := by decide
    simpa using hall v hv

/-- The forward scan of `app.py` emits exactly one Numeric Indicator per
maximal digit run (counted from the mode flag it starts in) and none
anywhere else, for any text that does not itself contain the indicator. -/
theorem ar2br_count_numsign (n : Nat) :
    ∀ (cs : List Char), cs.length ≤ n → ∀ (b : Bool), NUM_SIGN ∉ cs →
      (App.ar2brLoop cs b).count NUM_SIGN = digitRuns cs b := by
  induction n with
  | zero =>
    intro cs hl b _
    have : cs = [] := List.length_eq_zero.mp (Nat.le_zero.mp hl)
    subst this
    rfl
  | succ n ih =>
    intro cs hl b hns
    match cs with
    | [] => rfl
    | [c] =>
      have hc : c ≠ NUM_SIGN := fun e => hns (by simp [e])
      rw [App.ar2brLoop_single]
      cases hdig : pyIsDigit c with
      | true =>
        rw [App.ar2brStep_digit b hdig]
        cases b <;>
          simp [digitRuns, hdig, List.count_append, List.count_cons,
                digit_cell_ne_numsign hc]
      | false =>
        rw [App.ar2brStep_ord b hdig]
        simp [digitRuns, hdig, count_numsign_ar2brCells hc]
    | c :: c2 :: rest =>
      have hc : c ≠ NUM_SIGN := fun e => hns (by simp [e])
      have hns2 : NUM_SIGN ∉ c2 :: rest := fun hm => hns (List.mem_cons_of_mem _ hm)
      have hlen2 : (c2 :: rest).length ≤ n := by
        simp only [List.length_cons] at hl ⊢
        omega
      by_cases hlig : c = 'ل' ∧ ALEF_FORMS.contains c2 = true
      · obtain ⟨he, halef⟩ := hlig
        subst he
        rw [App.ar2brLoop_lam_alef rest b halef]
        have hrest : NUM_SIGN ∉ rest := fun hm => hns2 (List.mem_cons_of_mem _ hm)
        have hc2 : c2 ≠ NUM_SIGN := fun e => hns2 (by simp [e])
        have hlam : pyIsDigit 'ل' = false := by decide
        have halefd : pyIsDigit c2 = false := by
          have hall : ∀ x ∈ ALEF_FORMS, pyIsDigit x = false := by decide
          exact hall c2 (List.mem_of_elem_eq_true halef)
        rw [List.count_append, List.count_append,
            count_numsign_ar2brCells (by decide), count_numsign_ar2brCells hc2,
            ih rest (by simp only [List.length_cons] at hl; omega) false hrest]
        simp [digitRuns, hlam, halefd]
      · rw [App.ar2brLoop_cons_no_lig c c2 rest b hlig]
        cases hdig : pyIsDigit c with
        | true =>
          rw [App.ar2brStep_digit b hdig]
          have hih := ih (c2 :: rest) hlen2 true hns2
          cases b <;>
            (simp [digitRuns, hdig, List.count_append, List.count_cons,
                   digit_cell_ne_numsign hc, hih]
             try omega)
        | false =>
          rw [App.ar2brStep_ord b hdig]
          have hih := ih (c2 :: rest) hlen2 false hns2
          simp [digitRuns, hdig, List.count_append,
                count_numsign_ar2brCells hc, hih]

/-- C2: in `arabic_to_braille` the Numeric Indicator is emitted exactly once
at the start of each maximal run of consecutive digits and nowhere else
(formalized as the count identity with `digitRuns` over the scan, for inputs
not already containing the indicator cell); whitespace is emitted as itself
and always exits numeric mode — concretely, `"123"` converts to one
indicator followed by the three digit cells, and `"12 34"` and `"1 2"` each
produce exactly two indicators, in `app.py` as well as in `NaraMa3an.py`. -/
theorem C2_numeric_indicator_runs :
    (∀ (cs : List Char) (b : Bool), NUM_SIGN ∉ cs →
      (App.ar2brLoop cs b).count NUM_SIGN = digitRuns cs b) ∧
    App.arabic_to_braille "123".data false = "⠼⠁⠃⠉".data ∧
    App.arabic_to_braille "12 34".data false = "⠼⠁⠃ ⠼⠉⠙".data ∧
    App.arabic_to_braille "1 2".data false = "⠼⠁ ⠼⠃".data ∧
    (App.arabic_to_braille "12 34".data false).count NUM_SIGN = 2 ∧
    (App.arabic_to_braille "1 2".data false).count NUM_SIGN = 2 ∧
    Nara.arabic_to_braille "123".data false "qmark" = "⠼⠁⠃⠉".data ∧
    Nara.arabic_to_braille "12 34".data false "qmark" = "⠼⠁⠃ ⠼⠉⠙".data ∧
    Nara.arabic_to_braille "1 2".data false "qmark" = "⠼⠁ ⠼⠃".data :=
  ⟨fun cs b h => ar2br_count_numsign cs.length cs le_rfl b h,
   by decide, by decide, by decide, by decide, by decide, by decide, by decide, by decide⟩

/-- Witness for C2 at a concrete input: a text with a letter between two
digit runs yields exactly two indicators. -/
theorem C2_witness :
    (App.ar2brLoop ['1', 'ت', '2'] false).count NUM_SIGN =
      digitRuns ['1', 'ت', '2'] false :=
  C2_numeric_indicator_runs.1 ['1', 'ت', '2'] false (by decide)

end ArabicBraille

namespace ArabicBraille

namespace Nara

/-- The mode flag produced by a forward step does not depend on the
unknown-symbol policy. -/
theorem ar2brStep_flag (p : String) (c : Char) (b : Bool) :
    (ar2brStep p c b).2 = pyIsDigit c := by
  rw [ar2brStep]
  cases h : pyIsDigit c <;> simp

/-- A forward step under the `drop` policy emits at most as many cells as
under the `pass` policy. -/
theorem ar2brStep_len_le (c : Char) (b : Bool) :
    (ar2brStep "drop" c b).1.length ≤ (ar2brStep "pass" c b).1.length := by
  rw [ar2brStep, ar2brStep]
  cases h : pyIsDigit c
  · cases hl : AR2BR.lookup c <;> simp [hl, unknown_policy_apply]
  · cases hl : DIGIT_TO_BR.lookup c <;> cases b <;>
      (simp [hl, unknown_policy_apply]
       try omega)

/-- No cell emitted from the forward tables is the sentinel glyph. -/
theorem table_no_sentinel : ∀ w ∈ AR2BR.map Prod.snd, '⍰' ∉ w := by decide

/-- Under the placeholder policy a forward step emits exactly one sentinel
glyph when its lookup fails and none otherwise. -/
theorem ar2brStep_qmark_count (c : Char) (b : Bool) :
    List.count '⍰' (ar2brStep "qmark" c b).1 = unmappedStep c := by
  rw [ar2brStep, unmappedStep]
  cases h : pyIsDigit c
  · cases hl : AR2BR.lookup c with
    | none => simp [hl, unknown_policy_apply]
    | some v =>
      have hv := lookup_some_mem_values hl
      simp [hl, List.count_eq_zero.mpr (table_no_sentinel v hv)]
  · cases hl : DIGIT_TO_BR.lookup c with
    | none =>
      cases b <;>
        simp [hl, unknown_policy_apply, List.count_append, List.count_cons, NUM_SIGN]
    | some v =>
      have hv := lookup_some_mem_values hl
      have hall : ∀ w ∈ DIGIT_TO_BR.map Prod.snd, w ≠ '⍰' := by decide
      cases b <;> simp [hl, List.count_append, List.count_cons, hall v hv, NUM_SIGN]

/-- Length monotonicity of the forward scan between the `drop` and `pass`
policies: the two scans take the same branches with the same mode flags and
differ only in the emission at unmapped positions. -/
theorem ar2brLoop_len_le (n : Nat) :
    ∀ (cs : List Char), cs.length ≤ n → ∀ (b : Bool),
      (ar2brLoop "drop" cs b).length ≤ (ar2brLoop "pass" cs b).length := by
  induction n with
  | zero =>
    intro cs hl b
    have : cs = [] := List.length_eq_zero.mp (Nat.le_zero.mp hl)
    subst this
    exact le_rfl
  | succ n ih =>
    intro cs hl b
    match cs with
    | [] => exact le_rfl
    | [c] =>
      rw [nara_ar2brLoop_single, nara_ar2brLoop_single]
      exact ar2brStep_len_le c b
    | c :: c2 :: rest =>
      have hlen2 : (c2 :: rest).length ≤ n := by
        simp only [List.length_cons] at hl ⊢
        omega
      by_cases hlig : c = 'ل' ∧ ALEF_FORMS.contains c2 = true
      · obtain ⟨he, halef⟩ := hlig
        subst he
        rw [ar2brLoop, if_pos ⟨rfl, halef⟩, ar2brLoop, if_pos ⟨rfl, halef⟩]
        have hrest : rest.length ≤ n := by
          simp only [List.length_cons] at hl
          omega
        have hlam : AR2BR.lookup 'ل' = some ['⠇'] := by decide
        have halef2 : AR2BR.lookup c2 = some ['⠁'] := by
          have hall : ∀ x ∈ ALEF_FORMS, AR2BR.lookup x = some ['⠁'] := by decide
          exact hall c2 (List.mem_of_elem_eq_true halef)
        rw [hlam, halef2]
        simp only [List.length_append, Option.getD_some]
        have := ih rest hrest false
        omega
      · rw [nara_ar2brLoop_cons_no_lig _ c c2 rest b hlig,
            nara_ar2brLoop_cons_no_lig _ c c2 rest b hlig]
        simp only [List.length_append]
        have hs := ar2brStep_len_le c b
        have hf1 := ar2brStep_flag "drop" c b
        have hf2 := ar2brStep_flag "pass" c b
        have := ih (c2 :: rest) hlen2 (pyIsDigit c)
        rw [hf1, hf2]
        omega

/-- Sentinel-glyph count of the placeholder-policy forward scan: one glyph
per unmapped scan position, independent of the starting mode flag. -/
theorem ar2brLoop_qmark_count (n : Nat) :
    ∀ (cs : List Char), cs.length ≤ n → ∀ (b : Bool),
      List.count '⍰' (ar2brLoop "qmark" cs b) = unmappedCount cs := by
  induction n with
  | zero =>
    intro cs hl b
    have : cs = [] := List.length_eq_zero.mp (Nat.le_zero.mp hl)
    subst this
    rfl
  | succ n ih =>
    intro cs hl b
    match cs with
    | [] => rfl
    | [c] =>
      rw [nara_ar2brLoop_single, unmappedCount]
      exact ar2brStep_qmark_count c b
    | c :: c2 :: rest =>
      have hlen2 : (c2 :: rest).length ≤ n := by
        simp only [List.length_cons] at hl ⊢
        omega
      by_cases hlig : c = 'ل' ∧ ALEF_FORMS.contains c2 = true
      · obtain ⟨he, halef⟩ := hlig
        subst he
        rw [ar2brLoop, if_pos ⟨rfl, halef⟩, unmappedCount, if_pos ⟨rfl, halef⟩]
        have hrest : rest.length ≤ n := by
          simp only [List.length_cons] at hl
          omega
        have hlam : AR2BR.lookup 'ل' = some ['⠇'] := by decide
        have halef2 : AR2BR.lookup c2 = some ['⠁'] := by
          have hall : ∀ x ∈ ALEF_FORMS, AR2BR.lookup x = some ['⠁'] := by decide
          exact hall c2 (List.mem_of_elem_eq_true halef)
        rw [hlam, halef2]
        simp [List.count_append, List.count_cons, ih rest hrest false, NUM_SIGN]
      · rw [nara_ar2brLoop_cons_no_lig _ c c2 rest b hlig, unmappedCount, if_neg hlig]
        rw [List.count_append, ar2brStep_qmark_count c b,
            ih (c2 :: rest) hlen2 (ar2brStep "qmark" c b).2]

end Nara

/-- C4: the unknown-symbol policy is a pure function of the unit and the
policy — placeholder emits the sentinel `⍰`, pass-through the unit itself,
drop nothing — and the reverse transliterator's local resolver behaves
identically to the forward one's; consequently the `drop` output is never
longer than the `pass` output, and under the placeholder policy the output
carries exactly one sentinel glyph per unmapped scan position. -/
theorem C4_unknown_policy :
    (∀ (cell : Char) (p : String), Nara.unknown_out p cell = Nara.unknown_policy_apply cell p) ∧
    (∀ ch : Char,
      Nara.unknown_policy_apply ch "qmark" = ['⍰'] ∧
      Nara.unknown_policy_apply ch "pass" = [ch] ∧
      Nara.unknown_policy_apply ch "drop" = []) ∧
    (∀ (cs : List Char) (k : Bool),
      (Nara.arabic_to_braille cs k "drop").length ≤
        (Nara.arabic_to_braille cs k "pass").length) ∧
    (∀ (cs : List Char) (b : Bool),
      List.count '⍰' (Nara.ar2brLoop "qmark" cs b) = Nara.unmappedCount cs) := by
  refine ⟨fun _ _ => rfl, fun ch => ⟨rfl, rfl, rfl⟩, ?_, ?_⟩
  · intro cs k
    rw [Nara.arabic_to_braille, Nara.arabic_to_braille]
    exact Nara.ar2brLoop_len_le _ _ le_rfl false
  · intro cs b
    exact Nara.ar2brLoop_qmark_count cs.length cs le_rfl b

end ArabicBraille

namespace ArabicBraille

/-- Every value of the Braille-digit reverse table is an ASCII digit, hence
a key of `LATIN_TO_ARABIC_DIGITS`: the raising indexing
`LATIN_TO_ARABIC_DIGITS[digit]` always succeeds. -/
theorem latin_lookup_of_digit {c d : Char} (h : BR_TO_DIGIT.lookup c = some d) :
    LATIN_TO_ARABIC_DIGITS.lookup d = some (latin_to_arabic_digit d) := by
  have hv := lookup_some_mem_values h
  have hall : ∀ w ∈ BR_TO_DIGIT.map Prod.snd,
      LATIN_TO_ARABIC_DIGITS.lookup w = some (latin_to_arabic_digit w) := by decide
  exact hall d hv

namespace App

/-- The faithful single-cell reverse step never raises. -/
theorem br2arStepO_eq (ad : Bool) (c : Char) (b : Bool) :
    br2arStepO ad c b = some (br2arStep ad c b) := by
  rw [br2arStepO, br2arStep]
  by_cases h1 : c = NUM_SIGN
  · rw [if_pos h1, if_pos h1]
  · rw [if_neg h1, if_neg h1]
    by_cases h2 : isWs c = true
    · rw [if_pos h2, if_pos h2]
    · rw [if_neg h2, if_neg h2]
      cases b
      · simp
      · cases hl : BR_TO_DIGIT.lookup c with
        | none => simp [hl]
        | some d =>
          have hd := latin_lookup_of_digit hl
          cases ad <;> simp [hl, hd]

/-- The faithful reverse loop of `app.py` never raises and agrees with the
total loop. -/
theorem br2arLoopO_eq (ad : Bool) (n : Nat) :
    ∀ (cs : List Char), cs.length ≤ n → ∀ (b : Bool),
      br2arLoopO ad cs b = some (br2arLoop ad cs b) := by
  induction n with
  | zero =>
    intro cs hl b
    have : cs = [] := List.length_eq_zero.mp (Nat.le_zero.mp hl)
    subst this
    rfl
  | succ n ih =>
    intro cs hl b
    match cs with
    | [] => rfl
    | [c] =>
      have h1 : br2arLoopO ad [c] b = (br2arStepO ad c b).map (·.1) := rfl
      rw [h1, br2arLoop_single, br2arStepO_eq]
      rfl
    | c :: c2 :: rest =>
      have hlen2 : (c2 :: rest).length ≤ n := by
        simp only [List.length_cons] at hl ⊢
        omega
      have hrest : rest.length ≤ n := by
        simp only [List.length_cons] at hl
        omega
      by_cases hq : c = '⠦' ∧ c2 = '⠦'
      · obtain ⟨e1, e2⟩ := hq
        subst e1
        subst e2
        rw [br2arLoopO, if_pos ⟨rfl, rfl⟩, br2arLoop, if_pos ⟨rfl, rfl⟩,
            ih rest hrest false]
        rfl
      · by_cases hq2 : c = '⠴' ∧ c2 = '⠴'
        · obtain ⟨e1, e2⟩ := hq2
          subst e1
          subst e2
          rw [br2arLoopO, if_neg hq, if_pos ⟨rfl, rfl⟩, br2arLoop, if_neg hq,
              if_pos ⟨rfl, rfl⟩, ih rest hrest false]
          rfl
        · rw [br2arLoopO, if_neg hq, if_neg hq2, br2arLoop, if_neg hq, if_neg hq2,
              br2arStepO_eq]
          simp [ih (c2 :: rest) hlen2 (br2arStep ad c b).2]

end App

namespace Nara

/-- The faithful reverse loop of `NaraMa3an.py` never raises and agrees
with the total loop, for every unknown-symbol policy. -/
theorem nara_br2arLoopO_eq (ad : Bool) (p : String) (n : Nat) :
    ∀ (cs : List Char), cs.length ≤ n → ∀ (b : Bool),
      br2arLoopO ad p cs b = some (br2arLoop ad p cs b) := by
  induction n with
  | zero =>
    intro cs hl b
    have : cs = [] := List.length_eq_zero.mp (Nat.le_zero.mp hl)
    subst this
    rw [br2arLoopO, br2arLoop]
  | succ n ih =>
    intro cs hl b
    match cs with
    | [] => rw [br2arLoopO, br2arLoop]
    | c :: rest =>
      have hrest : rest.length ≤ n := by
        simp only [List.length_cons] at hl
        omega
      have hfalse : br2arLoopO ad p (c :: rest) false =
          some (br2arLoop ad p (c :: rest) false) := by
        rw [br2arLoopO, br2arLoop]
        by_cases h1 : c = NUM_SIGN
        · rw [if_pos h1, if_pos h1, ih rest hrest true]
        · rw [if_neg h1, if_neg h1]
          by_cases h2 : isWs c = true
          · rw [if_pos h2, if_pos h2, ih rest hrest false]
            rfl
          · rw [if_neg h2, if_neg h2, ih rest hrest false]
            rfl
      cases b
      · exact hfalse
      · rw [br2arLoopO, br2arLoop]
        by_cases h1 : c = NUM_SIGN
        · rw [if_pos h1, if_pos h1, ih rest hrest true]
        · rw [if_neg h1, if_neg h1]
          by_cases h2 : isWs c = true
          · rw [if_pos h2, if_pos h2, ih rest hrest false]
            rfl
          · rw [if_neg h2, if_neg h2]
            cases hl2 : BR_TO_DIGIT.lookup c with
            | some d =>
              have hd := latin_lookup_of_digit hl2
              cases ad <;> simp [hl2, hd, ih rest hrest true]
            | none => exact hfalse

end Nara

/-- C5: the transliterators are total — for every input and configuration
the faithful (`KeyError`-propagating) reverse transliterators of `app.py`
and `NaraMa3an.py` return a string rather than raising, and agree with
their total counterparts; the forward transliterators contain no fallible
operation (every table access is a `.get` with a default) and are embedded
as total functions. -/
theorem C5_totality :
    (∀ (cs : List Char) (ad : Bool), (App.braille_to_arabicO cs ad).isSome = true) ∧
    (∀ (cs : List Char) (ad : Bool) (p : String),
      (Nara.braille_to_arabicO cs ad p).isSome = true) ∧
    (∀ (cs : List Char) (ad : Bool),
      App.braille_to_arabicO cs ad = some (App.braille_to_arabic cs ad)) ∧
    (∀ (cs : List Char) (ad : Bool) (p : String),
      Nara.braille_to_arabicO cs ad p = some (Nara.braille_to_arabic cs ad p)) := by
  have happ : ∀ (cs : List Char) (ad : Bool),
      App.braille_to_arabicO cs ad = some (App.braille_to_arabic cs ad) := by
    intro cs ad
    rw [App.braille_to_arabicO, App.braille_to_arabic]
    exact App.br2arLoopO_eq ad _ _ le_rfl false
  have hnara : ∀ (cs : List Char) (ad : Bool) (p : String),
      Nara.braille_to_arabicO cs ad p = some (Nara.braille_to_arabic cs ad p) := by
    intro cs ad p
    rw [Nara.braille_to_arabicO, Nara.braille_to_arabic]
    exact Nara.nara_br2arLoopO_eq ad p _ _ le_rfl false
  exact ⟨fun cs ad => by rw [happ cs ad]; rfl,
         fun cs ad p => by rw [hnara cs ad p]; rfl,
         happ, hnara⟩

end ArabicBraille

namespace ArabicBraille

/-- A character of the newline-normalized text is a character of the
original text or a line feed. -/
theorem mem_normalize_newlines {cs : List Char} {c : Char}
    (h : c ∈ normalize_newlines cs) : c ∈ cs ∨ c = '\n' := by
  induction cs using normalize_newlines.induct with
  | case1 => simp [normalize_newlines] at h
  | case2 rest ih =>
    rw [normalize_newlines] at h
    rcases List.mem_cons.mp h with h1 | h1
    · exact Or.inr h1
    · rcases ih h1 with h2 | h2
      · exact Or.inl (by simp [h2])
      · exact Or.inr h2
  | case3 rest hne ih =>
    rw [normalize_newlines] at h
    · rcases List.mem_cons.mp h with h1 | h1
      · exact Or.inr h1
      · rcases ih h1 with h2 | h2
        · exact Or.inl (List.mem_cons_of_mem _ h2)
        · exact Or.inr h2
    · exact hne
  | case4 c0 rest hne1 hne2 ih =>
    rw [normalize_newlines] at h
    · rcases List.mem_cons.mp h with h1 | h1
      · exact Or.inl (by simp [h1])
      · rcases ih h1 with h2 | h2
        · exact Or.inl (List.mem_cons_of_mem _ h2)
        · exact Or.inr h2
    · exact hne1
    · exact hne2

end ArabicBraille

namespace ArabicBraille

/-- With no carriage return in the text, newline normalization is the
identity. -/
theorem normalize_newlines_id {cs : List Char} (h : '\r' ∉ cs) :
    normalize_newlines cs = cs := by
  induction cs using normalize_newlines.induct with
  | case1 => rfl
  | case2 rest ih => exact absurd (List.mem_cons_self _ _) h
  | case3 rest hne ih => exact absurd (List.mem_cons_self _ _) h
  | case4 c0 rest hne1 hne2 ih =>
    rw [normalize_newlines]
    · rw [ih (fun hm => h (List.mem_cons_of_mem _ hm))]
    · exact hne1
    · exact hne2

/-- NFKC folding is the identity on a text of NFKC-stable characters. -/
theorem normalize_unicode_id {cs : List Char} (h : ∀ c ∈ cs, nfkcChar c = [c]) :
    normalize_unicode cs = cs := by
  induction cs with
  | nil => rfl
  | cons c rest ih =>
    have h1 := h c (List.mem_cons_self _ _)
    have h2 : normalize_unicode rest = rest :=
      ih (fun x hx => h x (List.mem_cons_of_mem _ hx))
    rw [normalize_unicode] at h2 ⊢
    simp [h1, h2]

/-- Braille cells and whitespace are NFKC-stable. -/
theorem nfkcChar_id_of_brailleOrWs {c : Char} (h : brailleOrWs c = true) :
    nfkcChar c = [c] := by
  have h2 : c ≠ '²' := fun e => by rw [e] at h; exact absurd h (by decide)
  have h3 : c ≠ '³' := fun e => by rw [e] at h; exact absurd h (by decide)
  have h1 : c ≠ '¹' := fun e => by rw [e] at h; exact absurd h (by decide)
  rw [nfkcChar, if_neg h2, if_neg h3, if_neg h1]

/-- Counterexample to C8 as stated: `app.py`'s `braille_to_arabic` does
apply NFKC folding to its input (via `clean_text_pipeline` with
`keep_tashkeel=True`), observable on the superscript `²`, which a
line-endings-only normalization would leave untouched. -/
theorem C8_counterexample :
    App.braille_to_arabic ['²'] true = ['2'] ∧
    br2ar_line_endings_only ['²'] true = ['²'] ∧
    App.braille_to_arabic ['²'] true ≠ br2ar_line_endings_only ['²'] true :=
  ⟨by decide, by decide, by decide⟩

/-- C8 (amended): the reverse transliterators of `NaraMa3an.py` and
`arabic_braille_gui_v2.py` normalize line endings only, for every input;
`app.py`'s reverse transliterator additionally applies NFKC folding (with
diacritics kept, so nothing is stripped), and on inputs consisting of
Braille cells and whitespace — where NFKC is the identity — it too behaves
as if only line endings had been normalized. -/
theorem C8_normalization_amended :
    (∀ (cs : List Char) (ad : Bool) (p : String),
      Nara.braille_to_arabic cs ad p = Nara.br2arLoop ad p (normalize_newlines cs) false) ∧
    (∀ (cs : List Char) (ad : Bool),
      Gui.braille_to_arabic cs ad = Gui.br2arLoop ad (normalize_newlines cs) false) ∧
    (∀ (cs : List Char) (ad : Bool), (∀ c ∈ cs, brailleOrWs c = true) →
      App.braille_to_arabic cs ad = br2ar_line_endings_only cs ad) := by
  refine ⟨fun _ _ _ => rfl, fun _ _ => rfl, ?_⟩
  intro cs ad h
  have hclean : App.clean_text_pipeline cs true = normalize_unicode (normalize_newlines cs) := rfl
  rw [App.braille_to_arabic, hclean, br2ar_line_endings_only,
      normalize_unicode_id]
  intro c hc
  rcases mem_normalize_newlines hc with h1 | h1
  · exact nfkcChar_id_of_brailleOrWs (h c h1)
  · rw [h1]
    decide

/-- Witness for the amended C8 at a concrete Braille input containing a
CRLF line ending. -/
theorem C8_witness :
    App.braille_to_arabic ('⠼' :: '⠁' :: '\r' :: '\n' :: ['⠃']) false =
      br2ar_line_endings_only ('⠼' :: '⠁' :: '\r' :: '\n' :: ['⠃']) false :=
  C8_normalization_amended.2.2 _ false (by decide)

end ArabicBraille

namespace ArabicBraille

namespace App

/-- Characters recorded by the unsupported scan occur in the scanned
text. -/
theorem unsupportedIdx_mem :
    ∀ (l : List Char) (s : Nat) (q : Nat × Char), q ∈ unsupportedIdx l s → q.2 ∈ l := by
  intro l
  induction l with
  | nil =>
    intro s q h
    simp [unsupportedIdx] at h
  | cons c rest ih =>
    intro s q h
    rw [unsupportedIdx] at h
    by_cases hc : (pyIsDigit c || (AR2BR.lookup c).isSome) = true
    · rw [if_pos hc] at h
      exact List.mem_cons_of_mem _ (ih _ q h)
    · rw [if_neg hc] at h
      rcases List.mem_cons.mp h with h1 | h1
      · rw [h1]
        exact List.mem_cons_self _ _
      · exact List.mem_cons_of_mem _ (ih _ q h1)

/-- An unmapped character occurring exactly once is recorded exactly once,
at its position. -/
theorem unsupportedIdx_single {c : Char} (post : List Char)
    (hdig : pyIsDigit c = false) (hmap : AR2BR.lookup c = none) (hpost : c ∉ post) :
    ∀ (pre : List Char) (s : Nat), c ∉ pre →
      (unsupportedIdx (pre ++ c :: post) s).filter (fun q => q.2 = c) =
        [(s + pre.length, c)] := by
  intro pre
  induction pre with
  | nil =>
    intro s _
    rw [List.nil_append, unsupportedIdx, if_neg (by simp [hdig, hmap])]
    rw [List.filter_cons]
    have hnil : (unsupportedIdx post (s + 1)).filter (fun q => q.2 = c) = [] := by
      rw [List.filter_eq_nil_iff]
      intro q hq
      have := unsupportedIdx_mem post (s + 1) q hq
      simp only [decide_eq_true_eq]
      intro e
      exact hpost (e ▸ this)
    simp [hnil]
  | cons p0 pre' ih =>
    intro s hpre
    have hp0 : p0 ≠ c := fun e => hpre (by simp [e])
    have hpre' : c ∉ pre' := fun hm => hpre (List.mem_cons_of_mem _ hm)
    have harith : s + 1 + pre'.length = s + (p0 :: pre').length := by
      simp only [List.length_cons]
      omega
    rw [List.cons_append, unsupportedIdx]
    by_cases hc : (pyIsDigit p0 || (AR2BR.lookup p0).isSome) = true
    · rw [if_pos hc, ih (s + 1) hpre', harith]
    · rw [if_neg hc, List.filter_cons]
      simp only [decide_eq_true_eq]
      rw [if_neg (by simpa using hp0), ih (s + 1) hpre', harith]

/-- The context snippet around the single occurrence splits into at most 10
units before, the unit itself, and at most 10 units after, with newlines
made visible. -/
theorem contextSnippet_split (pre post : List Char) (c : Char) :
    contextSnippet (pre ++ c :: post) pre.length =
      ((pre.drop (pre.length - 10)) ++ c :: post.take 10).map
        (fun x => if x = '\n' then '⏎' else x) := by
  rw [contextSnippet]
  have h1 : (pre ++ c :: post).take (pre.length + 11) = pre ++ c :: post.take 10 := by
    rw [List.take_append]
    rfl
  rw [h1, List.drop_append_eq_append_drop]
  have h2 : pre.length - 10 - pre.length = 0 := by omega
  rw [h2, List.drop_zero]

end App

/-- C9: for a text containing exactly one occurrence of an unmapped
character, `app.py`'s Arabic-to-Braille coverage reporter counts that
character exactly once and records a single context snippet of up to 10
units on each side with embedded newlines rendered as `⏎`; and no character
ever accumulates more than 3 snippets. -/
theorem C9_coverage_reporter :
    (∀ (pre post : List Char) (c : Char),
      pyIsDigit c = false → App.AR2BR.lookup c = none → c ∉ pre → c ∉ post →
      App.report_counts (pre ++ c :: post) c = 1 ∧
      App.report_examples (pre ++ c :: post) c =
        [((pre.drop (pre.length - 10)) ++ c :: post.take 10).map
          (fun x => if x = '\n' then '⏎' else x)]) ∧
    (∀ (t : List Char) (c : Char), (App.report_examples t c).length ≤ 3) := by
  constructor
  · intro pre post c hdig hmap hpre hpost
    have hsingle := App.unsupportedIdx_single post hdig hmap hpost pre 0 hpre
    rw [Nat.zero_add] at hsingle
    constructor
    · rw [App.report_counts, hsingle]
      rfl
    · rw [App.report_examples, hsingle]
      simp [App.contextSnippet_split pre post c]
  · intro t c
    rw [App.report_examples]
    calc ((((App.unsupportedIdx t 0).filter (fun q => q.2 = c)).take 3).map
            (fun p => App.contextSnippet t p.1)).length
        = (((App.unsupportedIdx t 0).filter (fun q => q.2 = c)).take 3).length := by
          rw [List.length_map]
      _ ≤ 3 := by
          rw [List.length_take]
          exact min_le_left _ _

/-- Witness for C9 at a concrete input with one unmapped emoji. -/
theorem C9_witness :
    App.report_counts ("ab\ncd".data ++ '🙂' :: "xyz".data) '🙂' = 1 ∧
    App.report_examples ("ab\ncd".data ++ '🙂' :: "xyz".data) '🙂' =
      [(("ab\ncd".data.drop ("ab\ncd".data.length - 10)) ++ '🙂' :: "xyz".data.take 10).map
        (fun x => if x = '\n' then '⏎' else x)] :=
  C9_coverage_reporter.1 "ab\ncd".data "xyz".data '🙂'
    (by decide) (by decide) (by decide) (by decide)

end ArabicBraille

namespace ArabicBraille

namespace App

theorem safeChar_mem {c : Char} (hc : safeChar c = true) : c ∈ SAFE :=
  List.mem_of_elem_eq_true hc

theorem safe_pydigit {c : Char} (hc : safeChar c = true) :
    pyIsDigit c = isAsciiDigit c := by
  have h := List.all_eq_true.mp
    (by decide : SAFE.all (fun x => pyIsDigit x == isAsciiDigit x) = true) c (safeChar_mem hc)
  simpa using h

theorem safe_not_cr {c : Char} (hc : safeChar c = true) : c ≠ '\r' := by
  have h := List.all_eq_true.mp
    (by decide : SAFE.all (fun x => !(x == '\r')) = true) c (safeChar_mem hc)
  simpa using h

theorem safe_nfkc {c : Char} (hc : safeChar c = true) : nfkcChar c = [c] := by
  have h := List.all_eq_true.mp
    (by decide : SAFE.all (fun x => nfkcChar x == [x]) = true) c (safeChar_mem hc)
  simpa using h

theorem safe_not_tashkeel {c : Char} (hc : safeChar c = true) : isTashkeel c = false := by
  have h := List.all_eq_true.mp
    (by decide : SAFE.all (fun x => !(isTashkeel x)) = true) c (safeChar_mem hc)
  simpa using h

theorem safe_digit_fold {c : Char} (hc : safeChar c = true) :
    ARABIC_DIGITS_TO_LATIN.lookup c = none := by
  have h := List.all_eq_true.mp
    (by decide : SAFE.all (fun x => (ARABIC_DIGITS_TO_LATIN.lookup x).isNone) = true)
    c (safeChar_mem hc)
  simpa [Option.isNone_iff_eq_none] using h

theorem safe_latin_none {c : Char} (hc : safeChar c = true) (hnd : isAsciiDigit c = false) :
    LATIN_TO_ARABIC_DIGITS.lookup c = none := by
  have h := List.all_eq_true.mp
    (by decide : SAFE.all
      (fun x => isAsciiDigit x || (LATIN_TO_ARABIC_DIGITS.lookup x).isNone) = true)
    c (safeChar_mem hc)
  simpa [hnd, Option.isNone_iff_eq_none] using h

theorem safe_not_marks {c : Char} (hc : safeChar c = true) :
    c ≠ NUM_SIGN ∧ c ≠ '⠦' ∧ c ≠ '⠴' := by
  have h := List.all_eq_true.mp
    (by decide : SAFE.all
      (fun x => !(x == NUM_SIGN) && !(x == '⠦') && !(x == '⠴')) = true)
    c (safeChar_mem hc)
  simpa [and_assoc] using h

theorem safe_cell_marks {c : Char} (hc : safeChar c = true) :
    firstCell c ≠ '⠦' ∧ firstCell c ≠ '⠴' ∧ firstCell c ≠ NUM_SIGN := by
  have h := List.all_eq_true.mp
    (by decide : SAFE.all
      (fun x => !(firstCell x == '⠦') && !(firstCell x == '⠴') &&
        !(firstCell x == NUM_SIGN)) = true)
    c (safeChar_mem hc)
  simpa [and_assoc] using h

theorem safe_cell_ws {c : Char} (hc : safeChar c = true) (hws : isWs c = false) :
    isWs (firstCell c) = false := by
  have h := List.all_eq_true.mp
    (by decide : SAFE.all (fun x => isWs x || !(isWs (firstCell x))) = true)
    c (safeChar_mem hc)
  simpa [hws] using h

theorem safe_ws_firstCell {c : Char} (hc : safeChar c = true) (hws : isWs c = true) :
    firstCell c = c := by
  have h := List.all_eq_true.mp
    (by decide : SAFE.all (fun x => !(isWs x) || (firstCell x == x)) = true)
    c (safeChar_mem hc)
  simpa [hws] using h

theorem safe_lookup {c : Char} (hc : safeChar c = true) (hnd : isAsciiDigit c = false) :
    pyIsDigit c = false ∧ AR2BR.lookup c = some [firstCell c] ∧
      BR2AR.lookup [firstCell c] = some c := by
  have h := List.all_eq_true.mp
    (by decide : SAFE.all
      (fun x => isAsciiDigit x ||
        (!(pyIsDigit x) && (AR2BR.lookup x == some [firstCell x]) &&
         (BR2AR.lookup [firstCell x] == some x))) = true)
    c (safeChar_mem hc)
  simpa [hnd, and_assoc] using h

theorem safe_digit_spec {c : Char} (hc : safeChar c = true) (hd : isAsciiDigit c = true) :
    ∃ v, DIGIT_TO_BR.lookup c = some v ∧ BR_TO_DIGIT.lookup v = some c := by
  have h := List.all_eq_true.mp
    (by decide : SAFE.all
      (fun x => !(isAsciiDigit x) ||
        (match DIGIT_TO_BR.lookup x with
         | some v => BR_TO_DIGIT.lookup v == some x
         | none => false)) = true)
    c (safeChar_mem hc)
  simp only [hd, Bool.not_true, Bool.false_or] at h
  cases hl : DIGIT_TO_BR.lookup c with
  | none => rw [hl] at h; simp at h
  | some v =>
    rw [hl] at h
    simp only [beq_iff_eq] at h
    exact ⟨v, rfl, h⟩

theorem safe_alef {c : Char} (hc : safeChar c = true)
    (ha : ALEF_FORMS.contains c = true) : c = 'ا' := by
  have h := List.all_eq_true.mp
    (by decide : SAFE.all (fun x => !(ALEF_FORMS.contains x) || (x == 'ا')) = true)
    c (safeChar_mem hc)
  have hm : c ∈ ALEF_FORMS := List.mem_of_elem_eq_true ha
  simpa [hm] using h

theorem chainSafe_cons {c : Char} {rest : List Char} (h : chainSafe (c :: rest) = true) :
    safeChar c = true ∧ (isAsciiDigit c = true → headOK rest = true) ∧
      chainSafe rest = true := by
  rw [chainSafe] at h
  rcases Bool.and_eq_true_iff.mp h with ⟨h1, h3⟩
  rcases Bool.and_eq_true_iff.mp h1 with ⟨h4, h5⟩
  refine ⟨h4, ?_, h3⟩
  intro hd
  rcases Bool.or_eq_true_iff.mp h5 with h6 | h6
  · rw [hd] at h6
    exact absurd h6 (by decide)
  · exact h6

theorem chainSafe_all {cs : List Char} (h : chainSafe cs = true) :
    ∀ c ∈ cs, safeChar c = true := by
  induction cs with
  | nil =>
    intro c hc
    simp at hc
  | cons c0 rest ih =>
    obtain ⟨h1, _, h3⟩ := chainSafe_cons h
    intro c hc
    rcases List.mem_cons.mp hc with e | hm
    · rw [e]
      exact h1
    · exact ih h3 c hm

theorem headOK_nodigit {c : Char} {rest : List Char}
    (h : headOK (c :: rest) = true) (hnd : isAsciiDigit c = false) :
    BR_TO_DIGIT.lookup (firstCell c) = none := by
  rw [headOK, hnd, Bool.false_or, Bool.not_eq_true'] at h
  rw [lookup_eq_none_iff]
  intro hm
  rw [(by decide : BR_TO_DIGIT.map Prod.fst = digitCells)] at hm
  exact absurd (List.elem_iff.mpr hm) (by simpa using h)

end App

end ArabicBraille

namespace ArabicBraille

namespace App

theorem br2arOrd_of_lookup {v c : Char} (hB : BR2AR.lookup [v] = some c) :
    br2arOrd v = c := by
  rw [br2arOrd, hB]

/-- Decoding one Numeric Indicator cell: no output, numeric mode on. -/
theorem br2ar_numsign_cell (ad : Bool) (tail : List Char) (b : Bool) :
    br2arLoop ad (NUM_SIGN :: tail) b = br2arLoop ad tail true := by
  rw [br2arLoop_cons ad tail b (by decide) (by decide), br2arStep_numsign]
  rfl

/-- Decoding one whitespace cell: emitted as itself, numeric mode off. -/
theorem br2ar_ws_cell (ad : Bool) {c : Char} (tail : List Char) (b : Bool)
    (hws : isWs c = true) (h1 : c ≠ NUM_SIGN) (h2 : c ≠ '⠦') (h3 : c ≠ '⠴') :
    br2arLoop ad (c :: tail) b = c :: br2arLoop ad tail false := by
  rw [br2arLoop_cons ad tail b h2 h3, br2arStep_ws ad b hws h1]
  rfl

/-- Decoding one letter cell whose reverse entry is `c`: in numeric mode it
must not be a digit cell (that is the amended round-trip hypothesis). -/
theorem br2ar_letter_cell (ad : Bool) {v c : Char} (tail : List Char) (b : Bool)
    (hB : BR2AR.lookup [v] = some c)
    (hv1 : v ≠ '⠦') (hv2 : v ≠ '⠴') (hv3 : v ≠ NUM_SIGN) (hv4 : isWs v = false)
    (hnum : b = true → BR_TO_DIGIT.lookup v = none) :
    br2arLoop ad (v :: tail) b = c :: br2arLoop ad tail false := by
  rw [br2arLoop_cons ad tail b hv1 hv2]
  cases b
  · rw [br2arStep_false ad hv3 hv4, br2arOrd_of_lookup hB]
    rfl
  · rw [br2arStep_true_nodigit ad (hnum rfl) hv3 hv4, br2arOrd_of_lookup hB]
    rfl

/-- Decoding one digit cell in numeric mode: emitted per the digit-output
setting, numeric mode stays on. -/
theorem br2ar_digit_cell (ad : Bool) {v c : Char} (tail : List Char)
    (hbd : BR_TO_DIGIT.lookup v = some c) :
    br2arLoop ad (v :: tail) true =
      digit_output_script ad c :: br2arLoop ad tail true := by
  obtain ⟨h1, h2, h3, h4⟩ := brToDigit_key_facts v (lookup_some_mem_keys hbd)
  rw [br2arLoop_cons ad tail true h3 h4, br2arStep_true_digit ad hbd h1 h2]
  rfl

end App

theorem digit_output_script_id {c : Char} (ad : Bool)
    (h : LATIN_TO_ARABIC_DIGITS.lookup c = none) : digit_output_script ad c = c := by
  cases ad <;> simp [digit_output_script, h]

/-- The round-trip invariant: scanning the forward output with the reverse
loop, with synchronized numeric-mode flags, recovers the text (digits
adjusted for the output script).  The flag hypothesis is the amended
claim's guard: entering a position in numeric mode is only allowed when the
head is a digit or a character whose cell is not a digit cell. -/
theorem roundtrip_loop (ad : Bool) (n : Nat) :
    ∀ (cs : List Char), cs.length ≤ n → ∀ (b : Bool),
      App.chainSafe cs = true → (b = true → App.headOK cs = true) →
      App.br2arLoop ad (App.ar2brLoop cs b) b = cs.map (digit_output_script ad) := by
  induction n with
  | zero =>
    intro cs hl b _ _
    have : cs = [] := List.length_eq_zero.mp (Nat.le_zero.mp hl)
    subst this
    rfl
  | succ n ih =>
    intro cs hl b hsafe hhead
    match cs with
    | [] => rfl
    | [c] =>
      obtain ⟨hc, _, _⟩ := App.chainSafe_cons hsafe
      rw [App.ar2brLoop_single]
      cases hd : isAsciiDigit c with
      | true =>
        obtain ⟨v, hdl, hbd⟩ := App.safe_digit_spec hc hd
        have hpdT : pyIsDigit c = true := by rw [App.safe_pydigit hc, hd]
        cases b
        · rw [App.ar2brStep_digit false hpdT, hdl]
          show App.br2arLoop ad (NUM_SIGN :: [v]) false = _
          rw [App.br2ar_numsign_cell, App.br2ar_digit_cell ad [] hbd]
          rfl
        · rw [App.ar2brStep_digit true hpdT, hdl]
          show App.br2arLoop ad [v] true = _
          rw [App.br2ar_digit_cell ad [] hbd]
          rfl
      | false =>
        obtain ⟨hpd, hlk, hbr⟩ := App.safe_lookup hc hd
        rw [App.ar2brStep_ord b hpd, App.ar2brCells, hlk]
        simp only [Option.getD_some]
        have hdos : digit_output_script ad c = c :=
          digit_output_script_id ad (App.safe_latin_none hc hd)
        cases hws : isWs c with
        | true =>
          rw [App.safe_ws_firstCell hc hws]
          obtain ⟨hm1, hm2, hm3⟩ := App.safe_not_marks hc
          rw [show ([c] : List Char) = c :: [] from rfl,
              App.br2ar_ws_cell ad [] b hws hm1 hm2 hm3]
          simp [hdos, App.br2arLoop]
        | false =>
          obtain ⟨hv1, hv2, hv3⟩ := App.safe_cell_marks hc
          have hv4 := App.safe_cell_ws hc hws
          have hnum : b = true → BR_TO_DIGIT.lookup (App.firstCell c) = none := by
            intro e
            exact App.headOK_nodigit (hhead e) hd
          rw [show ([App.firstCell c] : List Char) = App.firstCell c :: [] from rfl,
              App.br2ar_letter_cell ad [] b hbr hv1 hv2 hv3 hv4 hnum]
          simp [hdos, App.br2arLoop]
    | c :: c2 :: rest2 =>
      obtain ⟨hc, hpair, hrest1⟩ := App.chainSafe_cons hsafe
      have hlen2 : (c2 :: rest2).length ≤ n := by
        simp only [List.length_cons] at hl ⊢
        omega
      by_cases hlig : c = 'ل' ∧ ALEF_FORMS.contains c2 = true
      · obtain ⟨he, halef⟩ := hlig
        subst he
        obtain ⟨hc2, _, hrest2s⟩ := App.chainSafe_cons hrest1
        have hc2a : c2 = 'ا' := App.safe_alef hc2 halef
        subst hc2a
        have hrlen : rest2.length ≤ n := by
          simp only [List.length_cons] at hl
          omega
        rw [App.ar2brLoop_lam_alef rest2 b halef,
            (by decide : App.ar2brCells 'ل' = ['⠇']),
            (by decide : App.ar2brCells 'ا' = ['⠁'])]
        show App.br2arLoop ad ('⠇' :: '⠁' :: App.ar2brLoop rest2 false) b = _
        have hB1 : App.BR2AR.lookup ['⠇'] = some 'ل' := by decide
        have hB2 : App.BR2AR.lookup ['⠁'] = some 'ا' := by decide
        rw [App.br2ar_letter_cell ad _ b hB1 (by decide) (by decide) (by decide)
              (by decide) (fun _ => by decide),
            App.br2ar_letter_cell ad _ false hB2 (by decide) (by decide) (by decide)
              (by decide) (fun e => absurd e (by decide)),
            ih rest2 hrlen false hrest2s (fun e => absurd e (by decide))]
        simp [digit_output_script_id ad (by decide : LATIN_TO_ARABIC_DIGITS.lookup 'ل' = none),
              digit_output_script_id ad (by decide : LATIN_TO_ARABIC_DIGITS.lookup 'ا' = none)]
      · rw [App.ar2brLoop_cons_no_lig c c2 rest2 b hlig]
        cases hd : isAsciiDigit c with
        | true =>
          obtain ⟨v, hdl, hbd⟩ := App.safe_digit_spec hc hd
          have hpdT : pyIsDigit c = true := by rw [App.safe_pydigit hc, hd]
          have hih := ih (c2 :: rest2) hlen2 true hrest1 (fun _ => hpair hd)
          cases b
          · rw [App.ar2brStep_digit false hpdT, hdl]
            show App.br2arLoop ad
              (NUM_SIGN :: v :: App.ar2brLoop (c2 :: rest2) true) false = _
            rw [App.br2ar_numsign_cell, App.br2ar_digit_cell ad _ hbd, hih]
            rfl
          · rw [App.ar2brStep_digit true hpdT, hdl]
            show App.br2arLoop ad (v :: App.ar2brLoop (c2 :: rest2) true) true = _
            rw [App.br2ar_digit_cell ad _ hbd, hih]
            rfl
        | false =>
          obtain ⟨hpd, hlk, hbr⟩ := App.safe_lookup hc hd
          rw [App.ar2brStep_ord b hpd, App.ar2brCells, hlk]
          simp only [Option.getD_some]
          have hdos : digit_output_script ad c = c :=
            digit_output_script_id ad (App.safe_latin_none hc hd)
          have hih := ih (c2 :: rest2) hlen2 false hrest1 (fun e => absurd e (by decide))
          cases hws : isWs c with
          | true =>
            rw [App.safe_ws_firstCell hc hws]
            obtain ⟨hm1, hm2, hm3⟩ := App.safe_not_marks hc
            show App.br2arLoop ad (c :: App.ar2brLoop (c2 :: rest2) false) b = _
            rw [App.br2ar_ws_cell ad _ b hws hm1 hm2 hm3, hih]
            simp [hdos]
          | false =>
            obtain ⟨hv1, hv2, hv3⟩ := App.safe_cell_marks hc
            have hv4 := App.safe_cell_ws hc hws
            have hnum : b = true → BR_TO_DIGIT.lookup (App.firstCell c) = none := by
              intro e
              exact App.headOK_nodigit (hhead e) hd
            show App.br2arLoop ad
              (App.firstCell c :: App.ar2brLoop (c2 :: rest2) false) b = _
            rw [App.br2ar_letter_cell ad _ b hbr hv1 hv2 hv3 hv4 hnum, hih]
            simp [hdos]

end ArabicBraille

namespace ArabicBraille

theorem normalize_digits_id {cs : List Char}
    (h : ∀ c ∈ cs, ARABIC_DIGITS_TO_LATIN.lookup c = none) :
    normalize_digits_to_latin cs = cs := by
  induction cs with
  | nil => rfl
  | cons c rest ih =>
    have h1 := h c (List.mem_cons_self _ _)
    have h2 := ih (fun x hx => h x (List.mem_cons_of_mem _ hx))
    simp only [normalize_digits_to_latin, List.map_cons] at h2 ⊢
    rw [h1, Option.getD_none, h2]

namespace App

/-- Every cell emitted by the ordinary forward branch for a safe character
is plain (no carriage return, NFKC-stable). -/
theorem ar2brCells_chars {c : Char} (hc : safeChar c = true) :
    ∀ u ∈ ar2brCells c, u ≠ '\r' ∧ nfkcChar u = [u] := by
  intro u hu
  rw [ar2brCells] at hu
  cases hl : AR2BR.lookup c with
  | none =>
    rw [hl] at hu
    simp at hu
    subst hu
    exact ⟨safe_not_cr hc, safe_nfkc hc⟩
  | some v =>
    rw [hl] at hu
    simp only [Option.getD_some] at hu
    have hv := lookup_some_mem_values hl
    have hall : ∀ w ∈ AR2BR.map Prod.snd, ∀ u ∈ w, u ≠ '\r' ∧ nfkcChar u = [u] := by decide
    exact hall v hv u hu

theorem ar2brStep_chars {c : Char} (b : Bool) (hc : safeChar c = true) :
    ∀ u ∈ (ar2brStep c b).1, u ≠ '\r' ∧ nfkcChar u = [u] := by
  intro u hu
  rw [ar2brStep] at hu
  by_cases hd : pyIsDigit c = true
  · rw [if_pos hd] at hu
    rcases List.mem_append.mp hu with h1 | h1
    · cases b
      · simp at h1
        subst h1
        exact ⟨by decide, by decide⟩
      · simp at h1
    · cases hl : DIGIT_TO_BR.lookup c with
      | none =>
        rw [hl] at h1
        simp at h1
        subst h1
        exact ⟨safe_not_cr hc, safe_nfkc hc⟩
      | some v =>
        rw [hl] at h1
        simp at h1
        subst h1
        have hv := lookup_some_mem_values hl
        have hall : ∀ w ∈ DIGIT_TO_BR.map Prod.snd, w ≠ '\r' ∧ nfkcChar w = [w] := by decide
        exact hall _ hv
  · rw [if_neg (by simp [hd])] at hu
    exact ar2brCells_chars hc u hu

/-- Every character of the forward output of a safe text is plain. -/
theorem ar2brLoop_chars (n : Nat) :
    ∀ (cs : List Char), cs.length ≤ n → (∀ c ∈ cs, safeChar c = true) → ∀ (b : Bool),
      ∀ u ∈ ar2brLoop cs b, u ≠ '\r' ∧ nfkcChar u = [u] := by
  induction n with
  | zero =>
    intro cs hl _ b u hu
    have : cs = [] := List.length_eq_zero.mp (Nat.le_zero.mp hl)
    subst this
    simp [ar2brLoop] at hu
  | succ n ih =>
    intro cs hl hall b u hu
    match cs with
    | [] => simp [ar2brLoop] at hu
    | [c] =>
      rw [ar2brLoop_single] at hu
      exact ar2brStep_chars b (hall c (by simp)) u hu
    | c :: c2 :: rest =>
      have h2 : ∀ x ∈ c2 :: rest, safeChar x = true :=
        fun x hx => hall x (List.mem_cons_of_mem _ hx)
      have hlen2 : (c2 :: rest).length ≤ n := by
        simp only [List.length_cons] at hl ⊢
        omega
      have hrlen : rest.length ≤ n := by
        simp only [List.length_cons] at hl
        omega
      by_cases hlig : c = 'ل' ∧ ALEF_FORMS.contains c2 = true
      · obtain ⟨he, halef⟩ := hlig
        subst he
        rw [ar2brLoop_lam_alef rest b halef] at hu
        rcases List.mem_append.mp hu with h1 | h1
        · rcases List.mem_append.mp h1 with h3 | h3
          · exact ar2brCells_chars (hall 'ل' (by simp)) u h3
          · exact ar2brCells_chars (hall c2 (by simp)) u h3
        · exact ih rest hrlen (fun x hx => hall x (by simp [hx])) false u h1
      · rw [ar2brLoop_cons_no_lig c c2 rest b hlig] at hu
        rcases List.mem_append.mp hu with h1 | h1
        · exact ar2brStep_chars b (hall c (by simp)) u h1
        · exact ih (c2 :: rest) hlen2 h2 _ u h1

end App

/-- Counterexample to C1 as stated: `"1ب"` satisfies every hypothesis of
the claim — both characters are individually mapped, non-colliding,
non-diacritic — yet the round trip yields `"12"`, because the cell of `ب`
is also the Braille digit-2 cell and the reverse scan is still in numeric
mode when it reads it. -/
theorem C1_counterexample :
    (∀ c ∈ ['1', 'ب'], App.safeChar c = true) ∧
    App.braille_to_arabic (App.arabic_to_braille ['1', 'ب'] false) false = ['1', '2'] ∧
    ['1', '2'] ≠ ['1', 'ب'] :=
  ⟨by decide, by decide, by decide⟩

/-- C1 (amended): the round trip reproduces the input exactly (digits
adjusted for the output script) for every text of safe characters in which,
additionally, no digit is immediately followed by a non-digit character
whose Braille cell is itself a digit cell. -/
theorem C1_roundtrip_amended :
    ∀ (cs : List Char) (ad : Bool), App.chainSafe cs = true →
      App.braille_to_arabic (App.arabic_to_braille cs false) ad =
        cs.map (digit_output_script ad) := by
  intro cs ad hsafe
  have hall := App.chainSafe_all hsafe
  have h1 : normalize_newlines cs = cs :=
    normalize_newlines_id (fun hm => App.safe_not_cr (hall _ hm) rfl)
  have h2 : normalize_unicode cs = cs :=
    normalize_unicode_id (fun c hm => App.safe_nfkc (hall c hm))
  have h3 : remove_tashkeel cs = cs := by
    rw [remove_tashkeel]
    apply List.filter_eq_self.mpr
    intro a ha
    simp [App.safe_not_tashkeel (hall a ha)]
  have h4 : normalize_digits_to_latin cs = cs :=
    normalize_digits_id (fun c hm => App.safe_digit_fold (hall c hm))
  have hclean : App.clean_text_pipeline cs false = cs := by
    have he : App.clean_text_pipeline cs false =
        remove_tashkeel (normalize_unicode (normalize_newlines cs)) := rfl
    rw [he, h1, h2, h3]
  have hfwd : App.arabic_to_braille cs false = App.ar2brLoop cs false := by
    rw [App.arabic_to_braille, hclean, h4]
  rw [hfwd]
  have hchars : ∀ u ∈ App.ar2brLoop cs false, u ≠ '\r' ∧ nfkcChar u = [u] :=
    App.ar2brLoop_chars cs.length cs le_rfl hall false
  have h5 : normalize_newlines (App.ar2brLoop cs false) = App.ar2brLoop cs false :=
    normalize_newlines_id (fun hm => (hchars _ hm).1 rfl)
  have h6 : normalize_unicode (App.ar2brLoop cs false) = App.ar2brLoop cs false :=
    normalize_unicode_id (fun u hm => (hchars u hm).2)
  have hclean2 : App.clean_text_pipeline (App.ar2brLoop cs false) true =
      App.ar2brLoop cs false := by
    have he : App.clean_text_pipeline (App.ar2brLoop cs false) true =
        normalize_unicode (normalize_newlines (App.ar2brLoop cs false)) := rfl
    rw [he, h5, h6]
  rw [App.braille_to_arabic, hclean2]
  exact roundtrip_loop ad cs.length cs le_rfl false hsafe (fun e => absurd e (by decide))

/-- Witness for the amended C1 at a concrete input containing letters, a
lām-alef ligature, whitespace and a digit run. -/
theorem C1_witness :
    App.braille_to_arabic (App.arabic_to_braille "سلام 123".data false) true =
      "سلام 123".data.map (digit_output_script true) :=
  C1_roundtrip_amended "سلام 123".data true (by decide)

end ArabicBraille
